import Mathlib

/-!
# Verification of the capnpy encode/decode core

A shallow embedding, in Lean 4, of the capnpy core (`struct_.py`, `list.py`,
`builder.py`): buffers are lists of bytes (natural numbers `< 256`), 64-bit
words are natural numbers `< 2^64`, and the Python functions are translated
into executable Lean definitions.  The wire-pointer arithmetic module
(`capnpy/ptr.py`), the extent-computation module (`capnpy/visit.py`) and the
far-pointer resolution of the segment layer are not part of the sources at
hand; they are modelled from the specification (marked `Modelled from the
spec:` in their doc comments).
-/

namespace Capnpy

/-! ## Byte-level primitives (little-endian codec) -/

/-- Decode a little-endian byte list into a natural number. -/
def decodeLE : List Nat → Nat
  | [] => 0
  | b :: bs => b + 256 * decodeLE bs

/-- Encode a natural number as `w` little-endian bytes (value taken mod `2^(8w)`). -/
def encodeLE : Nat → Nat → List Nat
  | 0, _ => []
  | w + 1, v => v % 256 :: encodeLE w (v / 256)

/-- `pack_int64` of `capnpy/packing.py`: pack one 64-bit word into 8 bytes,
little-endian (the Python signed int64 and the value mod `2^64` have the same
byte representation). -/
def pack_int64 (p : Nat) : List Nat := encodeLE 8 p

/-- Python slice `buf[a:b]` for byte lists (with `0 ≤ a ≤ b` positions). -/
def slice (buf : List Nat) (a b : Nat) : List Nat := (buf.drop a).take (b - a)

/-- Read the 64-bit little-endian word stored at byte offset `off`. -/
def readWord (buf : List Nat) (off : Nat) : Nat := decodeLE ((buf.drop off).take 8)

/-- Read a word at a possibly negative (Int) byte offset; all well-formed
accesses are at non-negative offsets. -/
def readWordI (buf : List Nat) (off : Int) : Nat :=
  if 0 ≤ off then readWord buf off.toNat else 0

theorem encodeLE_length (w v : Nat) : (encodeLE w v).length = w := by
  induction w generalizing v with
  | zero => rfl
  | succ w ih => simp [encodeLE, ih]

theorem pack_int64_length (p : Nat) : (pack_int64 p).length = 8 :=
  encodeLE_length 8 p

theorem decodeLE_encodeLE (w v : Nat) (h : v < 2 ^ (8 * w)) :
    decodeLE (encodeLE w v) = v := by
  induction w generalizing v with
  | zero =>
    simp [encodeLE, decodeLE]
    omega
  | succ w ih =>
    have h2 : v / 256 < 2 ^ (8 * w) := by
      have : 2 ^ (8 * (w + 1)) = 2 ^ (8 * w) * 256 := by ring
      rw [this] at h
      omega
    simp [encodeLE, decodeLE, ih _ h2]
    omega

theorem encodeLE_decodeLE (bs : List Nat) (hb : ∀ b ∈ bs, b < 256) :
    encodeLE bs.length (decodeLE bs) = bs := by
  induction bs with
  | nil => rfl
  | cons b bs ih =>
    have hb0 : b < 256 := hb b (by simp)
    simp only [List.length_cons, encodeLE, decodeLE]
    have h1 : (b + 256 * decodeLE bs) % 256 = b := by omega
    have h2 : (b + 256 * decodeLE bs) / 256 = decodeLE bs := by omega
    rw [h1, h2, ih (fun x hx => hb x (by simp [hx]))]

theorem decodeLE_lt (bs : List Nat) (hb : ∀ b ∈ bs, b < 256) :
    decodeLE bs < 2 ^ (8 * bs.length) := by
  induction bs with
  | nil => simp [decodeLE]
  | cons b bs ih =>
    have hb0 : b < 256 := hb b (by simp)
    have := ih (fun x hx => hb x (by simp [hx]))
    simp only [decodeLE, List.length_cons]
    have h2 : 2 ^ (8 * (bs.length + 1)) = 2 ^ (8 * bs.length) * 256 := by ring
    rw [h2]
    omega

/-! ## Wire-pointer arithmetic

Modelled from the spec: the module `capnpy/ptr.py` is not among the sources,
so the 8-byte pointer word layout is taken from §3/§4.1/§6 of the spec: the
low 2 bits are the kind tag (0 = struct, 1 = list, 2 = far), bits 2..31 hold
the signed relative word offset ("distance in words from the word immediately
following the pointer word"), and the high 32 bits hold the kind-specific
payload (`extra`): for struct pointers the data-section word count (low 16
bits) and the pointer-section word count (high 16 bits); for list pointers
the element-size tag (low 3 bits) and the element count (remaining 29 bits).
All functions take/yield the word as a natural number `< 2^64`. -/

def STRUCT : Nat := 0
def LIST : Nat := 1
def FAR : Nat := 2

def LIST_SIZE_BIT : Nat := 1
def LIST_SIZE_8 : Nat := 2
def LIST_SIZE_PTR : Nat := 6
def LIST_SIZE_COMPOSITE : Nat := 7

/-- Modelled from the spec: byte width of each scalar element-size tag
(0=void, 2=u8, 3=u16, 4=u32, 5=u64, 6=pointer); bit lists (tag 1) are
unsupported and never consult this table. -/
def LIST_SIZE_LENGTH (tag : Nat) : Nat :=
  if tag = 0 then 0
  else if tag = 2 then 1
  else if tag = 3 then 2
  else if tag = 4 then 4
  else if tag = 5 then 8
  else if tag = 6 then 8
  else 0

namespace ptr

/-- The 2-bit kind tag of a pointer word. -/
def kind (p : Nat) : Nat := p % 4

/-- The signed 30-bit relative word offset of a pointer word. -/
def offset (p : Nat) : Int :=
  if (p / 4) % 2 ^ 30 < 2 ^ 29 then ((p / 4) % 2 ^ 30 : Nat)
  else ((p / 4) % 2 ^ 30 : Nat) - (2 ^ 30 : Int)

/-- The high 32 bits (kind-specific payload) of a pointer word. -/
def extra (p : Nat) : Nat := (p / 2 ^ 32) % 2 ^ 32

/-- Assemble a pointer word from kind, signed offset and payload. -/
def new_generic (kind : Nat) (offset : Int) (extra : Nat) : Nat :=
  kind % 4 + 4 * (offset.emod (2 ^ 30)).toNat + 2 ^ 32 * (extra % 2 ^ 32)

/-- Assemble a struct pointer word. -/
def new_struct (offset : Int) (data_size ptrs_size : Nat) : Nat :=
  new_generic STRUCT offset (data_size % 2 ^ 16 + 2 ^ 16 * (ptrs_size % 2 ^ 16))

/-- Assemble a list pointer word. -/
def new_list (offset : Int) (size_tag item_count : Nat) : Nat :=
  new_generic LIST offset (size_tag % 8 + 8 * (item_count % 2 ^ 29))

/-- Dereference: the absolute byte position of the target of pointer word `p`
located at byte position `ofs` (`target = ofs + 8 + offset*8`). -/
def deref (p : Nat) (ofs : Int) : Int := ofs + (offset p + 1) * 8

/-- Data-section word count carried by a struct pointer. -/
def struct_data_size (p : Nat) : Nat := extra p % 2 ^ 16

/-- Pointer-section word count carried by a struct pointer. -/
def struct_ptrs_size (p : Nat) : Nat := extra p / 2 ^ 16

/-- Element-size tag carried by a list pointer. -/
def list_size_tag (p : Nat) : Nat := extra p % 8

/-- Element count (or composite total word count) carried by a list pointer. -/
def list_item_count (p : Nat) : Nat := extra p / 8

theorem kind_new_generic (k : Nat) (o : Int) (e : Nat) (hk : k < 4) :
    kind (new_generic k o e) = k := by
  unfold kind new_generic
  have h1 : (4 * (o.emod (2 ^ 30)).toNat) % 4 = 0 := by omega
  have h2 : (2 ^ 32 * (e % 2 ^ 32)) % 4 = 0 := by
    have : (2:Nat) ^ 32 = 4 * 2 ^ 30 := by norm_num
    rw [this]
    omega
  omega

theorem offset_new_generic (k : Nat) (o : Int) (e : Nat) (hk : k < 4)
    (hlo : -(2 ^ 29) ≤ o) (hhi : o < 2 ^ 29) :
    offset (new_generic k o e) = o := by
  unfold offset new_generic
  have hmod : (0:Int) ≤ o.emod (2 ^ 30) := Int.emod_nonneg o (by norm_num)
  have hmodlt : o.emod (2 ^ 30) < 2 ^ 30 := by
    have := Int.emod_lt_of_pos o (b := 2 ^ 30) (by norm_num)
    exact this
  set m : Nat := (o.emod (2 ^ 30)).toNat with hm
  have hmval : (m : Int) = o.emod (2 ^ 30) := Int.toNat_of_nonneg hmod
  have hdiv : (k % 4 + 4 * m + 2 ^ 32 * (e % 2 ^ 32)) / 4 = m + 2 ^ 30 * (e % 2 ^ 32) := by
    have : (2:Nat) ^ 32 = 4 * 2 ^ 30 := by norm_num
    rw [this]
    omega
  rw [hdiv]
  have hmlt : m < 2 ^ 30 := by
    have : (m : Int) < 2 ^ 30 := by rw [hmval]; exact hmodlt
    exact_mod_cast this
  have hmod2 : (m + 2 ^ 30 * (e % 2 ^ 32)) % 2 ^ 30 = m := by
    omega
  rw [hmod2]
  -- now show the signed reinterpretation of m is o
  rcases le_or_lt 0 o with hpos | hneg
  · have : o.emod (2 ^ 30) = o := by
      apply Int.emod_eq_of_lt hpos
      omega
    have hmo : (m : Int) = o := by rw [hmval, this]
    have : m < 2 ^ 29 := by
      have : (m : Int) < 2 ^ 29 := by rw [hmo]; exact hhi
      exact_mod_cast this
    simp only [this, if_true]
    exact hmo
  · have : o.emod (2 ^ 30) = o + 2 ^ 30 := by
      have h1 : (o + 2 ^ 30 * 1).emod (2 ^ 30) = o.emod (2 ^ 30) :=
        Int.add_mul_emod_self_left o (2 ^ 30) 1
      rw [mul_one] at h1
      rw [← h1]
      apply Int.emod_eq_of_lt <;> omega
    have hmo : (m : Int) = o + 2 ^ 30 := by rw [hmval, this]
    have hge : ¬ (m < 2 ^ 29) := by
      intro hcon
      have : (m : Int) < 2 ^ 29 := by exact_mod_cast hcon
      omega
    simp only [hge, if_false]
    omega

theorem extra_new_generic (k : Nat) (o : Int) (e : Nat) (hk : k < 4) (he : e < 2 ^ 32) :
    extra (new_generic k o e) = e := by
  unfold extra new_generic
  have hmod : (0:Int) ≤ o.emod (2 ^ 30) := Int.emod_nonneg o (by norm_num)
  have hmodlt : o.emod (2 ^ 30) < 2 ^ 30 := Int.emod_lt_of_pos o (by norm_num)
  set m : Nat := (o.emod (2 ^ 30)).toNat with hm
  have hmlt : m < 2 ^ 30 := by
    have : (m : Int) < 2 ^ 30 := by
      rw [hm, Int.toNat_of_nonneg hmod]
      exact hmodlt
    exact_mod_cast this
  have h1 : k % 4 + 4 * m < 2 ^ 32 := by
    have : (2:Nat) ^ 32 = 4 * 2 ^ 30 := by norm_num
    omega
  have hdiv : (k % 4 + 4 * m + 2 ^ 32 * (e % 2 ^ 32)) / 2 ^ 32 = e % 2 ^ 32 := by
    omega
  rw [hdiv]
  omega

theorem new_generic_lt (k : Nat) (o : Int) (e : Nat) (hk : k < 4) :
    new_generic k o e < 2 ^ 64 := by
  unfold new_generic
  have hmod : (0:Int) ≤ o.emod (2 ^ 30) := Int.emod_nonneg o (by norm_num)
  have hmodlt : o.emod (2 ^ 30) < 2 ^ 30 := Int.emod_lt_of_pos o (by norm_num)
  have hmlt : (o.emod (2 ^ 30)).toNat < 2 ^ 30 := by
    have : ((o.emod (2 ^ 30)).toNat : Int) < 2 ^ 30 := by
      rw [Int.toNat_of_nonneg hmod]; exact hmodlt
    exact_mod_cast this
  have he : e % 2 ^ 32 < 2 ^ 32 := Nat.mod_lt _ (by norm_num)
  have h64 : (2:Nat) ^ 64 = 2 ^ 32 * 2 ^ 32 := by norm_num
  have h32 : (2:Nat) ^ 32 = 4 * 2 ^ 30 := by norm_num
  omega

end ptr

/-! ## Struct read-side view (`capnpy/struct_.py`) -/

/-- The read-side struct view: a backing buffer (list of bytes) plus the
byte offset of the data section and the two section sizes in words
(`_init_from_buffer`).  `ptrs_offset = data_offset + data_size*8`. -/
structure StructView where
  buf : List Nat
  dataOffset : Nat
  dataSize : Nat
  ptrsSize : Nat
deriving Repr, DecidableEq

namespace StructView

/-- `self._ptrs_offset`. -/
def ptrsOffset (s : StructView) : Nat := s.dataOffset + s.dataSize * 8

/-- `Struct._read_fast_ptr`: read the pointer word at byte offset `offset`
of the pointer section, 0 when the offset is beyond `ptrs_size`. -/
def readFastPtr (s : StructView) (offset : Nat) : Nat :=
  if offset ≥ s.ptrsSize * 8 then 0
  else readWord s.buf (s.ptrsOffset + offset)

/-- `Struct._read_data`: read `size` bytes at byte offset `offset` of the
data section as an unsigned little-endian value, 0 when the offset is beyond
`data_size`. -/
def readData (s : StructView) (offset : Nat) (size : Nat) : Nat :=
  if offset ≥ s.dataSize * 8 then 0
  else decodeLE ((s.buf.drop (s.dataOffset + offset)).take size)

/-- Signed reinterpretation of an unsigned 16-bit value. -/
def toSigned16 (v : Nat) : Int :=
  if v % 2 ^ 16 < 2 ^ 15 then ((v % 2 ^ 16 : Nat) : Int)
  else ((v % 2 ^ 16 : Nat) : Int) - 2 ^ 16

/-- `Struct._read_data_int16`: read a signed 16-bit value at byte offset
`offset` of the data section, 0 when the offset is beyond `data_size`. -/
def readDataInt16 (s : StructView) (offset : Nat) : Int :=
  if offset ≥ s.dataSize * 8 then 0
  else toSigned16 (decodeLE ((s.buf.drop (s.dataOffset + offset)).take 2))

/-- `Struct._get_body_start`. -/
def bodyStart (s : StructView) : Nat := s.dataOffset

/-- `Struct._get_body_end`. -/
def bodyEnd (s : StructView) : Nat := s.dataOffset + (s.dataSize + s.ptrsSize) * 8

/-- The loop of `Struct._get_extra_start`: scan pointer fields from index `i`
upward; the first non-null pointer's dereferenced target is the start of the
extra section; `none` models the `assert ptr.kind(p) != ptr.FAR` failure.
The first argument counts the remaining iterations of the source's
`while i < ptrs_size` loop (the caller passes `ptrs_size - i`); when it
reaches zero every pointer was null and the body end is returned. -/
def getExtraStartLoop (s : StructView) : Nat → Nat → Option Int
  | 0, _ => some (s.bodyEnd : Int)
  | n + 1, i =>
    let p := s.readFastPtr (i * 8)
    if ptr.kind p = FAR then none
    else if p ≠ 0 then some ((s.ptrsOffset : Int) + ptr.deref p (i * 8))
    else getExtraStartLoop s n (i + 1)

/-- `Struct._get_extra_start`. -/
def getExtraStart (s : StructView) : Option Int :=
  if s.ptrsSize = 0 then some (s.bodyEnd : Int)
  else getExtraStartLoop s s.ptrsSize 0

end StructView

/-! ## Extent computation

Modelled from the spec: the module `capnpy/visit.py` (`end_of`) is not among
the sources.  Per §4.2, a struct's total byte extent is its data+pointer
section plus, for every pointer field it holds, the extent of whatever that
pointer's target occupies — computed by walking pointer fields and taking
the maximum end position reachable.  Per §4.3/§6 the same recursion covers
list targets: scalar lists end right after their items (regions padded to
8-byte boundaries), pointer lists recurse into each element, composite lists
read the tag word for the item shape and recurse into each item's pointer
fields; bit lists and far/unknown pointer kinds are decode errors (`none`).
The `fuel` argument bounds the recursion depth; a `none` result also models
the non-termination of the Python recursion on cyclic pointer graphs. -/

/-- Round a byte position up to the next word (8-byte) boundary. -/
def roundUpWord (z : Int) : Int := ((z + 7).fdiv 8) * 8

/-- Scan `n` pointer words starting at byte position `pos`, folding into
`acc` the maximum end reachable from each non-null pointer (`rec` is the
extent computation applied to a target). -/
def ptrsLoop (rec : Nat → Int → Option Int) (buf : List Nat) : Int → Nat → Int → Option Int
  | _, 0, acc => some acc
  | pos, n + 1, acc =>
    let q := readWordI buf pos
    if q = 0 then ptrsLoop rec buf (pos + 8) n acc
    else match rec q pos with
      | none => none
      | some e => ptrsLoop rec buf (pos + 8) n (max acc e)

/-- Scan the pointer sections of `n` consecutive composite-list items of
shape `(dsize, psize)`, the first item starting at byte position `pos`. -/
def itemsLoop (rec : Nat → Int → Option Int) (buf : List Nat) (dsize psize : Nat) :
    Int → Nat → Int → Option Int
  | _, 0, acc => some acc
  | pos, n + 1, acc =>
    match ptrsLoop rec buf (pos + dsize * 8) psize acc with
    | none => none
    | some acc2 => itemsLoop rec buf dsize psize (pos + (dsize + psize) * 8) n acc2

/-- The extent of the object of kind `k` and pointer payload `ex` whose body
starts at byte position `tgt`. -/
def endOfTgt (rec : Nat → Int → Option Int) (buf : List Nat) (k ex : Nat) (tgt : Int) :
    Option Int :=
  if k = STRUCT then
    let d : Nat := ex % 2 ^ 16
    let pz : Nat := ex / 2 ^ 16
    ptrsLoop rec buf (tgt + (d : Int) * 8) pz (tgt + ((d : Int) + pz) * 8)
  else if k = LIST then
    let tag : Nat := ex % 8
    let cnt : Nat := ex / 8
    if tag = LIST_SIZE_COMPOSITE then
      let tagw : Nat := readWordI buf tgt
      let m : Nat := (ptr.offset tagw).toNat
      let d : Nat := ptr.struct_data_size tagw
      let pz : Nat := ptr.struct_ptrs_size tagw
      if pz = 0 then some (tgt + 8 + (((d : Int) + pz) * 8) * m)
      else itemsLoop rec buf d pz (tgt + 8) m (tgt + 8 + (((d : Int) + pz) * 8) * m)
    else if tag = LIST_SIZE_PTR then
      ptrsLoop rec buf tgt cnt (tgt + (cnt : Int) * 8)
    else if tag = LIST_SIZE_BIT then none
    else some (roundUpWord (tgt + (LIST_SIZE_LENGTH tag : Int) * cnt))
  else none

/-- `end_of(seg, p, offset)`: the end of the object pointed to by the
pointer word `p` located at byte position `pos`. -/
def endOf : Nat → List Nat → Nat → Int → Option Int
  | 0, _, _, _ => none
  | fuel + 1, buf, p, pos =>
    endOfTgt (endOf fuel buf) buf (ptr.kind p) (ptr.extra p) (ptr.deref p pos)

namespace StructView

/-- `Struct._get_end`: the end of this struct including its extra section,
computed by `end_of` on a synthetic root pointer placed one word before the
data section. -/
def getEnd (fuel : Nat) (s : StructView) : Option Int :=
  endOf fuel s.buf (ptr.new_struct 0 s.dataSize s.ptrsSize) ((s.dataOffset : Int) - 8)

/-- The pointer-fixing loop of `Struct._split` (step 2): re-pack each of the
`n` pointer words from index `j` on, adding `additional` to the encoded
offset of each non-null pointer; `none` models the `assert` that no pointer
is FAR. -/
def fixPtrsLoop (s : StructView) (additional : Int) : Nat → Nat → Option (List Nat)
  | _, 0 => some []
  | j, n + 1 =>
    let p := s.readFastPtr (j * 8)
    if p = 0 then
      (fixPtrsLoop s additional (j + 1) n).map (fun rest => pack_int64 p ++ rest)
    else if ptr.kind p = FAR then none
    else
      let p2 := ptr.new_generic (ptr.kind p) (ptr.offset p + additional) (ptr.extra p)
      (fixPtrsLoop s additional (j + 1) n).map (fun rest => pack_int64 p2 ++ rest)

/-- `Struct._split`: split the body and the extra part, placing the extra
part at word offset `extraOffset` and adjusting the body pointers. -/
def split (fuel : Nat) (s : StructView) (extraOffset : Int) : Option (List Nat × List Nat) :=
  if s.ptrsSize = 0 then
    some (slice s.buf s.bodyStart s.bodyEnd, [])
  else
    match s.getExtraStart with
    | none => none
    | some extraStart =>
      match s.getEnd fuel with
      | none => none
      | some extraEnd =>
        let dataBuf := slice s.buf s.bodyStart (s.bodyStart + s.dataSize * 8)
        let oldExtraOffset := (extraStart - (s.bodyEnd : Int)).fdiv 8
        let additional := extraOffset - oldExtraOffset
        match s.fixPtrsLoop additional 0 s.ptrsSize with
        | none => none
        | some ptrsBuf =>
          some (dataBuf ++ ptrsBuf, slice s.buf extraStart.toNat extraEnd.toNat)

/-- `Struct.compact`: the compact version of the struct, backed by a fresh
buffer holding the body immediately followed by the extra part. -/
def compact (fuel : Nat) (s : StructView) : Option StructView :=
  (s.split fuel 0).map (fun be => ⟨be.1 ++ be.2, 0, s.dataSize, s.ptrsSize⟩)

end StructView

/-! ## Lemmas about the byte-level primitives -/

theorem length_slice (buf : List Nat) (a b : Nat) :
    (slice buf a b).length = min (b - a) (buf.length - a) := by
  simp [slice]

theorem readWord_lt (buf : List Nat) (off : Nat) (hb : ∀ b ∈ buf, b < 256) :
    readWord buf off < 2 ^ 64 := by
  unfold readWord
  have hsub : ∀ b ∈ (buf.drop off).take 8, b < 256 := by
    intro b hbmem
    exact hb b (List.mem_of_mem_drop (List.mem_of_mem_take hbmem))
  have h1 := decodeLE_lt _ hsub
  have h2 : ((buf.drop off).take 8).length ≤ 8 := by
    simp
  calc decodeLE ((buf.drop off).take 8) < 2 ^ (8 * ((buf.drop off).take 8).length) := h1
    _ ≤ 2 ^ 64 := by
        apply Nat.pow_le_pow_right (by norm_num)
        omega

theorem pack_readWord (buf : List Nat) (off : Nat) (hb : ∀ b ∈ buf, b < 256)
    (hlen : off + 8 ≤ buf.length) :
    pack_int64 (readWord buf off) = slice buf off (off + 8) := by
  unfold pack_int64 readWord slice
  have hlen8 : ((buf.drop off).take 8).length = 8 := by
    simp
    omega
  have hsub : ∀ b ∈ (buf.drop off).take 8, b < 256 := by
    intro b hbmem
    exact hb b (List.mem_of_mem_drop (List.mem_of_mem_take hbmem))
  have := encodeLE_decodeLE _ hsub
  rw [hlen8] at this
  rw [this]
  congr 1
  omega

theorem readWord_append_right (xs ys : List Nat) (off : Nat) (h : xs.length ≤ off) :
    readWord (xs ++ ys) off = readWord ys (off - xs.length) := by
  unfold readWord
  rw [List.drop_append_eq_append_drop]
  have : xs.drop off = [] := by
    apply List.drop_eq_nil_of_le
    exact h
  simp [this]

theorem readWord_append_left (xs ys : List Nat) (off : Nat) (h : off + 8 ≤ xs.length) :
    readWord (xs ++ ys) off = readWord xs off := by
  unfold readWord
  rw [List.drop_append_eq_append_drop]
  have h2 : off ≤ xs.length := by omega
  have h3 : off - xs.length = 0 := by omega
  rw [h3, List.take_append_eq_append_take]
  have h4 : (xs.drop off).length = xs.length - off := by simp
  have h5 : (8 : Nat) - (xs.drop off).length = 0 := by omega
  rw [h5]
  simp

theorem readWord_join_packs (ws : List Nat) (tail : List Nat) (k : Nat)
    (hk : k < ws.length) (hw : ∀ w ∈ ws, w < 2 ^ 64) :
    readWord ((ws.map pack_int64).flatten ++ tail) (k * 8) = ws.get ⟨k, hk⟩ := by
  induction ws generalizing k tail with
  | nil => exact absurd hk (by simp)
  | cons w ws ih =>
    match k with
    | 0 =>
      simp only [List.map_cons, List.flatten_cons, List.append_assoc]
      rw [Nat.zero_mul, readWord_append_left _ _ _ (by rw [pack_int64_length])]
      unfold readWord pack_int64
      have h8 : (encodeLE 8 w).length = 8 := encodeLE_length 8 w
      simp only [List.drop_zero]
      rw [List.take_of_length_le (le_of_eq h8)]
      exact decodeLE_encodeLE 8 w (by simpa using hw w (by simp))
    | k + 1 =>
      simp only [List.map_cons, List.flatten_cons, List.append_assoc]
      rw [readWord_append_right _ _ _ (by rw [pack_int64_length]; omega)]
      rw [pack_int64_length]
      have hsub : (k + 1) * 8 - 8 = k * 8 := by omega
      rw [hsub]
      have hk2 : k < ws.length := by simpa using hk
      rw [ih tail k hk2 (fun x hx => hw x (List.mem_cons_of_mem _ hx))]
      rfl

theorem readWord_slice (buf : List Nat) (a b t : Nat) (h : t + 8 ≤ b - a) :
    readWord (slice buf a b) t = readWord buf (a + t) := by
  unfold readWord slice
  rw [List.drop_take, List.drop_drop]
  rw [List.take_take]
  have h1 : min 8 (b - a - t) = 8 := by omega
  rw [h1]

/-! ## Derived wire-pointer lemmas -/

namespace ptr

theorem kind_lt (p : Nat) : kind p < 4 := Nat.mod_lt _ (by norm_num)

theorem extra_lt (p : Nat) : extra p < 2 ^ 32 := Nat.mod_lt _ (by norm_num)

theorem kind_new_struct (o : Int) (d pz : Nat) : kind (new_struct o d pz) = STRUCT :=
  kind_new_generic _ _ _ (by norm_num [STRUCT])

theorem offset_new_struct (o : Int) (d pz : Nat) (hlo : -(2 ^ 29) ≤ o) (hhi : o < 2 ^ 29) :
    offset (new_struct o d pz) = o :=
  offset_new_generic _ _ _ (by norm_num [STRUCT]) hlo hhi

theorem extra_new_struct (o : Int) (d pz : Nat) (hd : d < 2 ^ 16) (hpz : pz < 2 ^ 16) :
    extra (new_struct o d pz) = d + 2 ^ 16 * pz := by
  unfold new_struct
  rw [extra_new_generic _ _ _ (by norm_num [STRUCT]) (by omega)]
  omega

theorem struct_data_size_new_struct (o : Int) (d pz : Nat) (hd : d < 2 ^ 16)
    (hpz : pz < 2 ^ 16) : struct_data_size (new_struct o d pz) = d := by
  unfold struct_data_size
  rw [extra_new_struct o d pz hd hpz]
  omega

theorem struct_ptrs_size_new_struct (o : Int) (d pz : Nat) (hd : d < 2 ^ 16)
    (hpz : pz < 2 ^ 16) : struct_ptrs_size (new_struct o d pz) = pz := by
  unfold struct_ptrs_size
  rw [extra_new_struct o d pz hd hpz]
  omega

theorem extra_new_list (o : Int) (tag cnt : Nat) (htag : tag < 8) (hcnt : cnt < 2 ^ 29) :
    extra (new_list o tag cnt) = tag + 8 * cnt := by
  unfold new_list
  rw [extra_new_generic _ _ _ (by norm_num [LIST]) (by omega)]
  omega

theorem list_size_tag_new_list (o : Int) (tag cnt : Nat) (htag : tag < 8)
    (hcnt : cnt < 2 ^ 29) : list_size_tag (new_list o tag cnt) = tag := by
  unfold list_size_tag
  rw [extra_new_list o tag cnt htag hcnt]
  omega

theorem list_item_count_new_list (o : Int) (tag cnt : Nat) (htag : tag < 8)
    (hcnt : cnt < 2 ^ 29) : list_item_count (new_list o tag cnt) = cnt := by
  unfold list_item_count
  rw [extra_new_list o tag cnt htag hcnt]
  omega

/-- Reassembling a pointer word from its decoded fields gives the word back. -/
theorem new_generic_eq_self (p : Nat) (hp : p < 2 ^ 64) :
    new_generic (kind p) (offset p) (extra p) = p := by
  unfold new_generic kind offset extra
  have hext : p / 2 ^ 32 % 2 ^ 32 = p / 2 ^ 32 := by
    have : p / 2 ^ 32 < 2 ^ 32 := by omega
    omega
  rw [hext]
  by_cases hcase : (p / 4) % 2 ^ 30 < 2 ^ 29
  · simp only [hcase, if_true]
    have hnn : (0:Int) ≤ ((p / 4) % 2 ^ 30 : Nat) := Int.ofNat_nonneg _
    have : (((p / 4) % 2 ^ 30 : Nat) : Int).emod (2 ^ 30) = ((p / 4) % 2 ^ 30 : Nat) := by
      apply Int.emod_eq_of_lt hnn
      exact_mod_cast Nat.mod_lt _ (by norm_num)
    rw [this, Int.toNat_ofNat]
    have h32 : (2:Nat) ^ 32 = 4 * 2 ^ 30 := by norm_num
    omega
  · simp only [hcase, if_false]
    have hlt : (p / 4) % 2 ^ 30 < 2 ^ 30 := Nat.mod_lt _ (by norm_num)
    have hge : 2 ^ 29 ≤ (p / 4) % 2 ^ 30 := by omega
    have hstep : ((((p / 4) % 2 ^ 30 : Nat) : Int) - 2 ^ 30).emod (2 ^ 30)
        = (((p / 4) % 2 ^ 30 : Nat) : Int) := by
      have h1 : (((((p / 4) % 2 ^ 30 : Nat) : Int) - 2 ^ 30) + 2 ^ 30 * 1).emod (2 ^ 30)
          = ((((p / 4) % 2 ^ 30 : Nat) : Int) - 2 ^ 30).emod (2 ^ 30) :=
        Int.add_mul_emod_self_left _ (2 ^ 30) 1
      rw [← h1]
      have h2 : ((((p / 4) % 2 ^ 30 : Nat) : Int) - 2 ^ 30) + 2 ^ 30 * 1
          = ((p / 4) % 2 ^ 30 : Nat) := by ring
      rw [h2]
      apply Int.emod_eq_of_lt (Int.ofNat_nonneg _)
      exact_mod_cast hlt
    rw [hstep, Int.toNat_ofNat]
    have h32 : (2:Nat) ^ 32 = 4 * 2 ^ 30 := by norm_num
    omega

/-- Dereferencing is linear in the pointer position. -/
theorem deref_shift (p : Nat) (pos Δ : Int) : deref p (pos + Δ) = deref p pos + Δ := by
  unfold deref
  ring

end ptr

/-! ## Guarded extent computation

`endOfG` is `endOf` with an additional byte window `[lo, hi)`: every
dereferenced target body must lie inside the window, otherwise the
computation fails.  It is a proof device: it refines `endOf` (erasure), its
results stay inside the window (bounds), and it is equivariant under
translating the window together with the buffer contents (shift) — the key
facts behind the compaction proofs. -/

def endOfTgtG (lo hi : Int) (rec : Nat → Int → Option Int) (buf : List Nat) (k ex : Nat)
    (tgt : Int) : Option Int :=
  if k = STRUCT then
    let d : Nat := ex % 2 ^ 16
    let pz : Nat := ex / 2 ^ 16
    if lo ≤ tgt ∧ tgt + ((d : Int) + pz) * 8 ≤ hi then
      ptrsLoop rec buf (tgt + (d : Int) * 8) pz (tgt + ((d : Int) + pz) * 8)
    else none
  else if k = LIST then
    let tag : Nat := ex % 8
    let cnt : Nat := ex / 8
    if tag = LIST_SIZE_COMPOSITE then
      if lo ≤ tgt ∧ tgt + 8 ≤ hi then
        let tagw : Nat := readWordI buf tgt
        let m : Nat := (ptr.offset tagw).toNat
        let d : Nat := ptr.struct_data_size tagw
        let pz : Nat := ptr.struct_ptrs_size tagw
        if tgt + 8 + (((d : Int) + pz) * 8) * m ≤ hi then
          if pz = 0 then some (tgt + 8 + (((d : Int) + pz) * 8) * m)
          else itemsLoop rec buf d pz (tgt + 8) m (tgt + 8 + (((d : Int) + pz) * 8) * m)
        else none
      else none
    else if tag = LIST_SIZE_PTR then
      if lo ≤ tgt ∧ tgt + (cnt : Int) * 8 ≤ hi then
        ptrsLoop rec buf tgt cnt (tgt + (cnt : Int) * 8)
      else none
    else if tag = LIST_SIZE_BIT then none
    else
      if lo ≤ tgt ∧ roundUpWord (tgt + (LIST_SIZE_LENGTH tag : Int) * cnt) ≤ hi then
        some (roundUpWord (tgt + (LIST_SIZE_LENGTH tag : Int) * cnt))
      else none
  else none

def endOfG (lo hi : Int) : Nat → List Nat → Nat → Int → Option Int
  | 0, _, _, _ => none
  | fuel + 1, buf, p, pos =>
    endOfTgtG lo hi (endOfG lo hi fuel buf) buf (ptr.kind p) (ptr.extra p) (ptr.deref p pos)

theorem fdiv_eight (z : Int) : z.fdiv 8 = z / 8 := Int.fdiv_eq_ediv z (by norm_num)

theorem roundUpWord_shift (z Δ : Int) (h8 : (8 : Int) ∣ Δ) :
    roundUpWord (z + Δ) = roundUpWord z + Δ := by
  obtain ⟨c, rfl⟩ := h8
  unfold roundUpWord
  rw [fdiv_eight, fdiv_eight]
  omega

/-! ### Monotonicity / erasure -/

theorem ptrsLoop_mono (rec1 rec2 : Nat → Int → Option Int) (buf : List Nat)
    (hrec : ∀ q pp e, rec1 q pp = some e → rec2 q pp = some e) :
    ∀ (n : Nat) (pos : Int) (acc r : Int),
      ptrsLoop rec1 buf pos n acc = some r → ptrsLoop rec2 buf pos n acc = some r := by
  intro n
  induction n with
  | zero => intro pos acc r hr; exact hr
  | succ n ih =>
    intro pos acc r hr
    unfold ptrsLoop at hr ⊢
    by_cases hq : readWordI buf pos = 0
    · simp only [hq, if_true] at hr ⊢
      exact ih _ _ _ hr
    · simp only [hq, if_false] at hr ⊢
      cases he : rec1 (readWordI buf pos) pos with
      | none => rw [he] at hr; exact absurd hr (by simp)
      | some e =>
        rw [he] at hr
        rw [hrec _ _ _ he]
        exact ih _ _ _ hr

theorem itemsLoop_mono (rec1 rec2 : Nat → Int → Option Int) (buf : List Nat) (d pz : Nat)
    (hrec : ∀ q pp e, rec1 q pp = some e → rec2 q pp = some e) :
    ∀ (n : Nat) (pos : Int) (acc r : Int),
      itemsLoop rec1 buf d pz pos n acc = some r →
      itemsLoop rec2 buf d pz pos n acc = some r := by
  intro n
  induction n with
  | zero => intro pos acc r hr; exact hr
  | succ n ih =>
    intro pos acc r hr
    unfold itemsLoop at hr ⊢
    cases hl : ptrsLoop rec1 buf (pos + (d : Int) * 8) pz acc with
    | none => rw [hl] at hr; exact absurd hr (by simp)
    | some acc2 =>
      rw [hl] at hr
      rw [ptrsLoop_mono rec1 rec2 buf hrec _ _ _ _ hl]
      exact ih _ _ _ hr

theorem endOfTgtG_erase (lo hi : Int) (rec1 rec2 : Nat → Int → Option Int) (buf : List Nat)
    (k ex : Nat) (tgt : Int) (e : Int)
    (hrec : ∀ q pp e2, rec1 q pp = some e2 → rec2 q pp = some e2)
    (h : endOfTgtG lo hi rec1 buf k ex tgt = some e) :
    endOfTgt rec2 buf k ex tgt = some e := by
  unfold endOfTgtG at h
  unfold endOfTgt
  by_cases hk : k = STRUCT
  · simp only [hk, if_true] at h ⊢
    split at h
    · exact ptrsLoop_mono rec1 rec2 buf hrec _ _ _ _ h
    · exact absurd h (by simp)
  · simp only [hk, if_false] at h ⊢
    by_cases hk2 : k = LIST
    · simp only [hk2, if_true] at h ⊢
      by_cases htag : ex % 8 = LIST_SIZE_COMPOSITE
      · simp only [htag, if_true] at h ⊢
        split at h
        · split at h
          · by_cases hpz : ptr.struct_ptrs_size (readWordI buf tgt) = 0
            · simp only [hpz, if_true] at h ⊢; exact h
            · simp only [hpz, if_false] at h ⊢
              exact itemsLoop_mono rec1 rec2 buf _ _ hrec _ _ _ _ h
          · exact absurd h (by simp)
        · exact absurd h (by simp)
      · simp only [htag, if_false] at h ⊢
        by_cases htag2 : ex % 8 = LIST_SIZE_PTR
        · simp only [htag2, if_true] at h ⊢
          split at h
          · exact ptrsLoop_mono rec1 rec2 buf hrec _ _ _ _ h
          · exact absurd h (by simp)
        · simp only [htag2, if_false] at h ⊢
          by_cases htag3 : ex % 8 = LIST_SIZE_BIT
          · simp only [htag3, if_true] at h; exact absurd h (by simp)
          · simp only [htag3, if_false] at h ⊢
            split at h
            · exact h
            · exact absurd h (by simp)
    · simp only [hk2, if_false] at h
      exact absurd h (by simp)

theorem endOfG_erase (lo hi : Int) (fuel : Nat) (buf : List Nat) :
    ∀ (p : Nat) (pos e : Int), endOfG lo hi fuel buf p pos = some e →
      endOf fuel buf p pos = some e := by
  induction fuel with
  | zero => intro p pos e h; exact absurd h (by simp [endOfG])
  | succ fuel ih =>
    intro p pos e h
    unfold endOfG at h
    unfold endOf
    exact endOfTgtG_erase lo hi _ _ buf _ _ _ _ (fun q pp e2 hq => ih q pp e2 hq) h

/-! ### Window bounds -/

theorem le_roundUpWord (z : Int) : z ≤ roundUpWord z := by
  unfold roundUpWord
  rw [fdiv_eight]
  omega

theorem ptrsLoop_bounds (lo hi : Int) (rec : Nat → Int → Option Int) (buf : List Nat)
    (hrec : ∀ q pp e, rec q pp = some e → lo ≤ e ∧ e ≤ hi) :
    ∀ (n : Nat) (pos acc r : Int), lo ≤ acc → acc ≤ hi →
      ptrsLoop rec buf pos n acc = some r → lo ≤ r ∧ r ≤ hi := by
  intro n
  induction n with
  | zero =>
    intro pos acc r h1 h2 hr
    unfold ptrsLoop at hr
    cases hr
    exact ⟨h1, h2⟩
  | succ n ih =>
    intro pos acc r h1 h2 hr
    unfold ptrsLoop at hr
    by_cases hq : readWordI buf pos = 0
    · simp only [hq, if_true] at hr
      exact ih _ _ _ h1 h2 hr
    · simp only [hq, if_false] at hr
      cases he : rec (readWordI buf pos) pos with
      | none => rw [he] at hr; exact absurd hr (by simp)
      | some e =>
        rw [he] at hr
        obtain ⟨he1, he2⟩ := hrec _ _ _ he
        exact ih _ _ _ (by omega) (by exact max_le h2 he2) hr

theorem itemsLoop_bounds (lo hi : Int) (rec : Nat → Int → Option Int) (buf : List Nat)
    (d pz : Nat)
    (hrec : ∀ q pp e, rec q pp = some e → lo ≤ e ∧ e ≤ hi) :
    ∀ (n : Nat) (pos acc r : Int), lo ≤ acc → acc ≤ hi →
      itemsLoop rec buf d pz pos n acc = some r → lo ≤ r ∧ r ≤ hi := by
  intro n
  induction n with
  | zero =>
    intro pos acc r h1 h2 hr
    unfold itemsLoop at hr
    cases hr
    exact ⟨h1, h2⟩
  | succ n ih =>
    intro pos acc r h1 h2 hr
    unfold itemsLoop at hr
    cases hl : ptrsLoop rec buf (pos + (d : Int) * 8) pz acc with
    | none => rw [hl] at hr; exact absurd hr (by simp)
    | some acc2 =>
      rw [hl] at hr
      obtain ⟨ha1, ha2⟩ := ptrsLoop_bounds lo hi rec buf hrec _ _ _ _ h1 h2 hl
      exact ih _ _ _ ha1 ha2 hr

theorem endOfTgtG_bounds (lo hi : Int) (rec : Nat → Int → Option Int) (buf : List Nat)
    (k ex : Nat) (tgt e : Int)
    (hrec : ∀ q pp e2, rec q pp = some e2 → lo ≤ e2 ∧ e2 ≤ hi)
    (h : endOfTgtG lo hi rec buf k ex tgt = some e) : lo ≤ e ∧ e ≤ hi := by
  unfold endOfTgtG at h
  by_cases hk : k = STRUCT
  · simp only [hk, if_true] at h
    split at h
    · rename_i hg
      exact ptrsLoop_bounds lo hi rec buf hrec _ _ _ _ (by omega) (by omega) h
    · exact absurd h (by simp)
  · simp only [hk, if_false] at h
    by_cases hk2 : k = LIST
    · simp only [hk2, if_true] at h
      by_cases htag : ex % 8 = LIST_SIZE_COMPOSITE
      · simp only [htag, if_true] at h
        split at h
        · rename_i hg1
          split at h
          · rename_i hg2
            by_cases hpz : ptr.struct_ptrs_size (readWordI buf tgt) = 0
            · simp only [hpz, if_true] at h
              cases h
              rw [hpz] at hg2
              constructor
              · have hnn : (0:Int) ≤ (((ptr.struct_data_size (readWordI buf tgt) : Int) +
                    ((0 : Nat) : Int)) * 8) *
                    ((ptr.offset (readWordI buf tgt)).toNat : Int) := by positivity
                omega
              · exact hg2
            · simp only [hpz, if_false] at h
              apply itemsLoop_bounds lo hi rec buf _ _ hrec _ _ _ _ _ _ h
              · have : (0:Int) ≤ (((ptr.struct_data_size (readWordI buf tgt) : Int) +
                    (ptr.struct_ptrs_size (readWordI buf tgt) : Int)) * 8) *
                    ((ptr.offset (readWordI buf tgt)).toNat : Int) := by positivity
                omega
              · exact hg2
          · exact absurd h (by simp)
        · exact absurd h (by simp)
      · simp only [htag, if_false] at h
        by_cases htag2 : ex % 8 = LIST_SIZE_PTR
        · simp only [htag2, if_true] at h
          split at h
          · rename_i hg
            apply ptrsLoop_bounds lo hi rec buf hrec _ _ _ _ _ _ h
            · have : (0:Int) ≤ ((ex / 8 : Nat) : Int) * 8 := by positivity
              omega
            · omega
          · exact absurd h (by simp)
        · simp only [htag2, if_false] at h
          by_cases htag3 : ex % 8 = LIST_SIZE_BIT
          · simp only [htag3, if_true] at h; exact absurd h (by simp)
          · simp only [htag3, if_false] at h
            split at h
            · rename_i hg
              cases h
              refine ⟨?_, hg.2⟩
              have h1 : (0:Int) ≤ ((LIST_SIZE_LENGTH (ex % 8) : Int)) * ((ex / 8 : Nat) : Int) := by
                positivity
              have h2 := le_roundUpWord (tgt + (LIST_SIZE_LENGTH (ex % 8) : Int) * ((ex / 8 : Nat) : Int))
              omega
            · exact absurd h (by simp)
    · simp only [hk2, if_false] at h
      exact absurd h (by simp)

theorem endOfG_bounds (lo hi : Int) (fuel : Nat) (buf : List Nat) :
    ∀ (p : Nat) (pos e : Int), endOfG lo hi fuel buf p pos = some e →
      lo ≤ e ∧ e ≤ hi := by
  induction fuel with
  | zero => intro p pos e h; exact absurd h (by simp [endOfG])
  | succ fuel ih =>
    intro p pos e h
    unfold endOfG at h
    exact endOfTgtG_bounds lo hi _ buf _ _ _ _ (fun q pp e2 hq => ih q pp e2 hq) h

/-! ### Translation equivariance (shift) -/

theorem ptrsLoop_shift (lo hi Δ : Int) (rec1 rec2 : Nat → Int → Option Int)
    (buf1 buf2 : List Nat)
    (hrec : ∀ q pp, rec2 q (pp + Δ) = (rec1 q pp).map (· + Δ))
    (hread : ∀ z : Int, lo ≤ z → z + 8 ≤ hi → readWordI buf2 (z + Δ) = readWordI buf1 z) :
    ∀ (n : Nat) (pos acc : Int), lo ≤ pos → pos + (n : Int) * 8 ≤ hi →
      ptrsLoop rec2 buf2 (pos + Δ) n (acc + Δ) = (ptrsLoop rec1 buf1 pos n acc).map (· + Δ) := by
  intro n
  induction n with
  | zero => intro pos acc _ _; rfl
  | succ n ih =>
    intro pos acc hlo hhi
    unfold ptrsLoop
    have hr : readWordI buf2 (pos + Δ) = readWordI buf1 pos := by
      apply hread pos hlo
      have : (0:Int) ≤ (n : Int) * 8 := by positivity
      push_cast at hhi
      omega
    rw [hr]
    by_cases hq : readWordI buf1 pos = 0
    · simp only [hq, if_true]
      have harr : pos + Δ + 8 = pos + 8 + Δ := by ring
      rw [harr]
      apply ih (pos + 8) acc (by omega)
      push_cast at hhi ⊢
      omega
    · simp only [hq, if_false]
      rw [hrec (readWordI buf1 pos) pos]
      cases he : rec1 (readWordI buf1 pos) pos with
      | none => simp
      | some e =>
        simp only [Option.map]
        have harr : pos + Δ + 8 = pos + 8 + Δ := by ring
        have hmax : max (acc + Δ) (e + Δ) = max acc e + Δ := (max_add_add_right acc e Δ)
        rw [harr, hmax]
        apply ih (pos + 8) (max acc e) (by omega)
        push_cast at hhi ⊢
        omega

theorem itemsLoop_shift (lo hi Δ : Int) (rec1 rec2 : Nat → Int → Option Int)
    (buf1 buf2 : List Nat) (d pz : Nat)
    (hrec : ∀ q pp, rec2 q (pp + Δ) = (rec1 q pp).map (· + Δ))
    (hread : ∀ z : Int, lo ≤ z → z + 8 ≤ hi → readWordI buf2 (z + Δ) = readWordI buf1 z) :
    ∀ (n : Nat) (pos acc : Int), lo ≤ pos → pos + ((n * (d + pz) : Nat) : Int) * 8 ≤ hi →
      itemsLoop rec2 buf2 d pz (pos + Δ) n (acc + Δ)
        = (itemsLoop rec1 buf1 d pz pos n acc).map (· + Δ) := by
  intro n
  induction n with
  | zero => intro pos acc _ _; rfl
  | succ n ih =>
    intro pos acc hlo hhi
    unfold itemsLoop
    have hexp : ((n + 1) * (d + pz) : Nat) = (d + pz) + n * (d + pz) := by ring
    rw [hexp] at hhi
    push_cast at hhi
    have hnn : (0:Int) ≤ (n : Int) * ((d : Int) + (pz : Int)) := by positivity
    have hd8 : (0:Int) ≤ (d : Int) * 8 := by positivity
    have harr : pos + Δ + (d : Int) * 8 = (pos + (d : Int) * 8) + Δ := by ring
    rw [harr]
    rw [ptrsLoop_shift lo hi Δ rec1 rec2 buf1 buf2 hrec hread pz (pos + (d : Int) * 8) acc
      (by omega) (by linarith)]
    cases hl : ptrsLoop rec1 buf1 (pos + (d : Int) * 8) pz acc with
    | none => simp
    | some acc2 =>
      simp only [Option.map]
      have harr2 : pos + Δ + ((d : Int) + pz) * 8 = (pos + ((d : Int) + pz) * 8) + Δ := by ring
      rw [harr2]
      apply ih (pos + ((d : Int) + pz) * 8) acc2 (by linarith)
      push_cast
      linarith

theorem endOfTgtG_shift (lo hi Δ : Int) (h8 : (8 : Int) ∣ Δ)
    (rec1 rec2 : Nat → Int → Option Int) (buf1 buf2 : List Nat)
    (hrec : ∀ q pp, rec2 q (pp + Δ) = (rec1 q pp).map (· + Δ))
    (hread : ∀ z : Int, lo ≤ z → z + 8 ≤ hi → readWordI buf2 (z + Δ) = readWordI buf1 z)
    (k ex : Nat) (tgt : Int) :
    endOfTgtG (lo + Δ) (hi + Δ) rec2 buf2 k ex (tgt + Δ)
      = (endOfTgtG lo hi rec1 buf1 k ex tgt).map (· + Δ) := by
  unfold endOfTgtG
  by_cases hk : k = STRUCT
  · simp only [hk, if_true]
    by_cases hg : lo ≤ tgt ∧ tgt + (((ex % 2 ^ 16 : Nat) : Int) + ((ex / 2 ^ 16 : Nat) : Int)) * 8 ≤ hi
    · rw [if_pos hg, if_pos (⟨by omega, by omega⟩ : lo + Δ ≤ tgt + Δ ∧
          tgt + Δ + (((ex % 2 ^ 16 : Nat) : Int) + ((ex / 2 ^ 16 : Nat) : Int)) * 8 ≤ hi + Δ)]
      have harr : tgt + Δ + ((ex % 2 ^ 16 : Nat) : Int) * 8
          = (tgt + ((ex % 2 ^ 16 : Nat) : Int) * 8) + Δ := by ring
      have harr2 : tgt + Δ + (((ex % 2 ^ 16 : Nat) : Int) + ((ex / 2 ^ 16 : Nat) : Int)) * 8
          = (tgt + (((ex % 2 ^ 16 : Nat) : Int) + ((ex / 2 ^ 16 : Nat) : Int)) * 8) + Δ := by
        ring
      rw [harr, harr2]
      apply ptrsLoop_shift lo hi Δ rec1 rec2 buf1 buf2 hrec hread
      · have : (0:Int) ≤ ((ex % 2 ^ 16 : Nat) : Int) * 8 := by positivity
        omega
      · have := hg.2
        push_cast at this ⊢
        linarith
    · rw [if_neg hg, if_neg (fun hcon => hg ⟨by omega, by omega⟩)]
      rfl
  · simp only [hk, if_false]
    by_cases hk2 : k = LIST
    · simp only [hk2, if_true]
      by_cases htag : ex % 8 = LIST_SIZE_COMPOSITE
      · simp only [htag, if_true]
        by_cases hg1 : lo ≤ tgt ∧ tgt + 8 ≤ hi
        · rw [if_pos hg1, if_pos (⟨by omega, by omega⟩ : lo + Δ ≤ tgt + Δ ∧ tgt + Δ + 8 ≤ hi + Δ)]
          have hrw : readWordI buf2 (tgt + Δ) = readWordI buf1 tgt :=
            hread tgt hg1.1 hg1.2
          rw [hrw]
          set tagw := readWordI buf1 tgt with htagw
          set m : Nat := (ptr.offset tagw).toNat
          set d : Nat := ptr.struct_data_size tagw
          set pz : Nat := ptr.struct_ptrs_size tagw
          by_cases hg2 : tgt + 8 + (((d : Int) + pz) * 8) * m ≤ hi
          · rw [if_pos hg2,
              if_pos (by omega : tgt + Δ + 8 + (((d : Int) + pz) * 8) * m ≤ hi + Δ)]
            by_cases hpz : pz = 0
            · rw [if_pos hpz, if_pos hpz]
              simp only [Option.map]
              congr 1
              ring
            · rw [if_neg hpz, if_neg hpz]
              have harr : tgt + Δ + 8 = (tgt + 8) + Δ := by ring
              have harr2 : tgt + Δ + 8 + (((d : Int) + pz) * 8) * m
                  = (tgt + 8 + (((d : Int) + pz) * 8) * m) + Δ := by ring
              rw [harr2, harr]
              apply itemsLoop_shift lo hi Δ rec1 rec2 buf1 buf2 d pz hrec hread
              · omega
              · push_cast
                have := hg2
                push_cast at this
                linarith
          · rw [if_neg hg2,
              if_neg (by omega : ¬ (tgt + Δ + 8 + (((d : Int) + pz) * 8) * m ≤ hi + Δ))]
            rfl
        · rw [if_neg hg1, if_neg (fun hcon => hg1 ⟨by omega, by omega⟩)]
          rfl
      · simp only [htag, if_false]
        by_cases htag2 : ex % 8 = LIST_SIZE_PTR
        · simp only [htag2, if_true]
          by_cases hg : lo ≤ tgt ∧ tgt + ((ex / 8 : Nat) : Int) * 8 ≤ hi
          · rw [if_pos hg, if_pos (⟨by omega, by omega⟩ : lo + Δ ≤ tgt + Δ ∧
                tgt + Δ + ((ex / 8 : Nat) : Int) * 8 ≤ hi + Δ)]
            have harr : tgt + Δ + ((ex / 8 : Nat) : Int) * 8
                = (tgt + ((ex / 8 : Nat) : Int) * 8) + Δ := by ring
            rw [harr]
            apply ptrsLoop_shift lo hi Δ rec1 rec2 buf1 buf2 hrec hread
            · exact hg.1
            · exact hg.2
          · rw [if_neg hg, if_neg (fun hcon => hg ⟨by omega, by omega⟩)]
            rfl
        · simp only [htag2, if_false]
          by_cases htag3 : ex % 8 = LIST_SIZE_BIT
          · simp only [htag3, if_true]
            rfl
          · simp only [htag3, if_false]
            have hsh : roundUpWord (tgt + Δ + (LIST_SIZE_LENGTH (ex % 8) : Int) * ((ex / 8 : Nat) : Int))
                = roundUpWord (tgt + (LIST_SIZE_LENGTH (ex % 8) : Int) * ((ex / 8 : Nat) : Int)) + Δ := by
              have harr : tgt + Δ + (LIST_SIZE_LENGTH (ex % 8) : Int) * ((ex / 8 : Nat) : Int)
                  = (tgt + (LIST_SIZE_LENGTH (ex % 8) : Int) * ((ex / 8 : Nat) : Int)) + Δ := by
                ring
              rw [harr]
              exact roundUpWord_shift _ Δ h8
            by_cases hg : lo ≤ tgt ∧
                roundUpWord (tgt + (LIST_SIZE_LENGTH (ex % 8) : Int) * ((ex / 8 : Nat) : Int)) ≤ hi
            · rw [if_pos hg, if_pos (by rw [hsh]; exact ⟨by omega, by omega⟩ :
                  lo + Δ ≤ tgt + Δ ∧
                  roundUpWord (tgt + Δ + (LIST_SIZE_LENGTH (ex % 8) : Int) * ((ex / 8 : Nat) : Int))
                    ≤ hi + Δ)]
              simp only [Option.map]
              rw [hsh]
            · rw [if_neg hg, if_neg (by rw [hsh]; exact fun hcon => hg ⟨by omega, by omega⟩ :
                  ¬ (lo + Δ ≤ tgt + Δ ∧
                  roundUpWord (tgt + Δ + (LIST_SIZE_LENGTH (ex % 8) : Int) * ((ex / 8 : Nat) : Int))
                    ≤ hi + Δ))]
              rfl
    · simp only [hk2, if_false]
      rfl

theorem endOfG_shift (lo hi Δ : Int) (h8 : (8 : Int) ∣ Δ) (buf1 buf2 : List Nat)
    (hread : ∀ z : Int, lo ≤ z → z + 8 ≤ hi → readWordI buf2 (z + Δ) = readWordI buf1 z) :
    ∀ (fuel : Nat) (p : Nat) (pos : Int),
      endOfG (lo + Δ) (hi + Δ) fuel buf2 p (pos + Δ)
        = (endOfG lo hi fuel buf1 p pos).map (· + Δ) := by
  intro fuel
  induction fuel with
  | zero => intro p pos; rfl
  | succ fuel ih =>
    intro p pos
    unfold endOfG
    rw [ptr.deref_shift]
    exact endOfTgtG_shift lo hi Δ h8 _ _ buf1 buf2 (fun q pp => ih q pp) hread _ _ _

/-! ### Characterization of `_get_extra_start` and of the pointer-fixing loop -/

namespace StructView

theorem getExtraStartLoop_all_null (s : StructView) :
    ∀ (n i : Nat),
      (∀ k, i ≤ k → k < i + n → s.readFastPtr (k * 8) = 0) →
      s.getExtraStartLoop n i = some (s.bodyEnd : Int) := by
  intro n
  induction n with
  | zero => intro i _; rfl
  | succ n ih =>
    intro i hnull
    unfold getExtraStartLoop
    have h0 : s.readFastPtr (i * 8) = 0 := hnull i (le_refl i) (by omega)
    simp only [h0]
    rw [if_neg (by simp [ptr.kind, FAR]), if_neg (by simp)]
    exact ih (i + 1) (fun k hk1 hk2 => hnull k (by omega) (by omega))

theorem getExtraStartLoop_first (s : StructView) :
    ∀ (n i j : Nat), i ≤ j → j < i + n →
      (∀ k, i ≤ k → k < j → s.readFastPtr (k * 8) = 0) →
      s.readFastPtr (j * 8) ≠ 0 →
      ptr.kind (s.readFastPtr (j * 8)) ≠ FAR →
      s.getExtraStartLoop n i
        = some ((s.ptrsOffset : Int) + ptr.deref (s.readFastPtr (j * 8)) ((j : Int) * 8)) := by
  intro n
  induction n with
  | zero => intro i j hij hj _ _ _; omega
  | succ n ih =>
    intro i j hij hj hnull hnz hfar
    by_cases hji : j = i
    · subst hji
      unfold getExtraStartLoop
      simp only [if_neg hfar, if_pos hnz]
    · unfold getExtraStartLoop
      have h0 : s.readFastPtr (i * 8) = 0 := hnull i (le_refl i) (by omega)
      simp only [h0]
      rw [if_neg (by simp [ptr.kind, FAR]), if_neg (by simp)]
      exact ih (i + 1) j (by omega) (by omega)
        (fun k hk1 hk2 => hnull k (by omega) hk2) hnz hfar

/-- The word that `Struct._split` writes for a body pointer: null words stay
zero, non-null pointers get `additional` added to their encoded offset. -/
def fixWord (additional : Int) (p : Nat) : Nat :=
  if p = 0 then 0
  else ptr.new_generic (ptr.kind p) (ptr.offset p + additional) (ptr.extra p)

theorem fixWord_lt (additional : Int) (p : Nat) : fixWord additional p < 2 ^ 64 := by
  unfold fixWord
  split
  · norm_num
  · exact ptr.new_generic_lt _ _ _ (ptr.kind_lt p)

theorem fixPtrsLoop_eq (s : StructView) (additional : Int) :
    ∀ (n j : Nat),
      (∀ k, k < n → s.readFastPtr ((j + k) * 8) ≠ 0 →
        ptr.kind (s.readFastPtr ((j + k) * 8)) ≠ FAR) →
      s.fixPtrsLoop additional j n
        = some (((List.range n).map
            (fun k => pack_int64 (fixWord additional (s.readFastPtr ((j + k) * 8))))).flatten) := by
  intro n
  induction n with
  | zero => intro j _; rfl
  | succ n ih =>
    intro j hfar
    have hr : ((List.range (n + 1)).map
          (fun k => pack_int64 (fixWord additional (s.readFastPtr ((j + k) * 8))))).flatten
        = pack_int64 (fixWord additional (s.readFastPtr (j * 8)))
          ++ ((List.range n).map
            (fun k => pack_int64 (fixWord additional (s.readFastPtr ((j + 1 + k) * 8))))).flatten := by
      rw [List.range_succ_eq_map]
      simp only [List.map_cons, List.flatten_cons, List.map_map]
      rw [show j + 0 = j by omega]
      congr 1
      apply congrArg
      apply List.map_congr_left
      intro k _
      simp only [Function.comp_apply]
      rw [show j + (k + 1) = j + 1 + k by omega]
    rw [hr]
    unfold fixPtrsLoop
    have hih := ih (j + 1) (fun k hk hnz => by
      have hh := hfar (k + 1) (by omega)
      rw [show j + (k + 1) = j + 1 + k by omega] at hh
      exact hh hnz)
    by_cases h0 : s.readFastPtr (j * 8) = 0
    · simp only [h0, if_true]
      rw [hih]
      simp only [Option.map]
      simp [fixWord]
    · simp only [h0, if_false]
      have hfar0 : ¬ (ptr.kind (s.readFastPtr (j * 8)) = FAR) := by
        have hh := hfar 0 (by omega)
        rw [show j + 0 = j by omega] at hh
        exact hh h0
      rw [if_neg hfar0]
      rw [hih]
      simp only [Option.map]
      simp [fixWord, h0]

theorem length_flatten_packs (ws : List Nat) :
    ((ws.map pack_int64).flatten).length = 8 * ws.length := by
  induction ws with
  | nil => rfl
  | cons w ws ih =>
    simp only [List.map_cons, List.flatten_cons, List.length_append, ih,
      pack_int64_length, List.length_cons]
    ring

end StructView

/-! ### Correspondence between the original and the compacted buffer -/

theorem endOf_correspond (es ee Δ : Int) (h8 : (8 : Int) ∣ Δ) (g : Nat)
    (bufx bufy : List Nat)
    (hread : ∀ z : Int, es ≤ z → z + 8 ≤ ee → readWordI bufy (z + Δ) = readWordI bufx z)
    (q q2 : Nat) (hkind : ptr.kind q2 = ptr.kind q) (hextra : ptr.extra q2 = ptr.extra q)
    (posx posy : Int) (hderef : ptr.deref q2 posy = ptr.deref q posx + Δ)
    (e : Int) (hx : endOfG es ee g bufx q posx = some e) :
    endOf g bufy q2 posy = some (e + Δ) := by
  cases g with
  | zero => exact absurd hx (by simp [endOfG])
  | succ g =>
    unfold endOfG at hx
    unfold endOf
    rw [hkind, hextra, hderef]
    have hs := endOfTgtG_shift es ee Δ h8 (endOfG es ee g bufx) (endOfG (es + Δ) (ee + Δ) g bufy)
      bufx bufy (fun q3 pp => endOfG_shift es ee Δ h8 bufx bufy hread g q3 pp) hread
      (ptr.kind q) (ptr.extra q) (ptr.deref q posx)
    rw [hx] at hs
    simp only [Option.map] at hs
    exact endOfTgtG_erase (es + Δ) (ee + Δ) _ (endOf g bufy) bufy _ _ _ _
      (fun q3 pp e2 hq => endOfG_erase (es + Δ) (ee + Δ) g bufy q3 pp e2 hq) hs

theorem topLoop_correspond (es ee Δ : Int) (h8 : (8 : Int) ∣ Δ) (g : Nat)
    (bufx bufy : List Nat)
    (hread : ∀ z : Int, es ≤ z → z + 8 ≤ ee → readWordI bufy (z + Δ) = readWordI bufx z) :
    ∀ (n : Nat) (px py accx r : Int),
      (∀ k : Nat, k < n →
        ((readWordI bufy (py + (k : Int) * 8) = 0) ↔ (readWordI bufx (px + (k : Int) * 8) = 0)) ∧
        (readWordI bufx (px + (k : Int) * 8) ≠ 0 →
          ptr.kind (readWordI bufy (py + (k : Int) * 8))
            = ptr.kind (readWordI bufx (px + (k : Int) * 8)) ∧
          ptr.extra (readWordI bufy (py + (k : Int) * 8))
            = ptr.extra (readWordI bufx (px + (k : Int) * 8)) ∧
          ptr.deref (readWordI bufy (py + (k : Int) * 8)) (py + (k : Int) * 8)
            = ptr.deref (readWordI bufx (px + (k : Int) * 8)) (px + (k : Int) * 8) + Δ)) →
      ptrsLoop (endOfG es ee g bufx) bufx px n accx = some r →
      ptrsLoop (endOf g bufy) bufy py n (max (es + Δ) (accx + Δ))
        = some (max (es + Δ) (r + Δ)) := by
  intro n
  induction n with
  | zero =>
    intro px py accx r _ hr
    unfold ptrsLoop at hr ⊢
    cases hr
    rfl
  | succ n ih =>
    intro px py accx r hks hr
    have hk0 := hks 0 (by omega)
    rw [show px + ((0 : Nat) : Int) * 8 = px by push_cast; ring,
        show py + ((0 : Nat) : Int) * 8 = py by push_cast; ring] at hk0
    obtain ⟨hiff, hcorr⟩ := hk0
    have hks2 : ∀ k : Nat, k < n →
        ((readWordI bufy (py + 8 + (k : Int) * 8) = 0)
          ↔ (readWordI bufx (px + 8 + (k : Int) * 8) = 0)) ∧
        (readWordI bufx (px + 8 + (k : Int) * 8) ≠ 0 →
          ptr.kind (readWordI bufy (py + 8 + (k : Int) * 8))
            = ptr.kind (readWordI bufx (px + 8 + (k : Int) * 8)) ∧
          ptr.extra (readWordI bufy (py + 8 + (k : Int) * 8))
            = ptr.extra (readWordI bufx (px + 8 + (k : Int) * 8)) ∧
          ptr.deref (readWordI bufy (py + 8 + (k : Int) * 8)) (py + 8 + (k : Int) * 8)
            = ptr.deref (readWordI bufx (px + 8 + (k : Int) * 8)) (px + 8 + (k : Int) * 8) + Δ) := by
      intro k hk
      have hh := hks (k + 1) (by omega)
      rw [show px + ((k + 1 : Nat) : Int) * 8 = px + 8 + (k : Int) * 8 by push_cast; ring,
          show py + ((k + 1 : Nat) : Int) * 8 = py + 8 + (k : Int) * 8 by push_cast; ring] at hh
      exact hh
    unfold ptrsLoop at hr ⊢
    by_cases hq : readWordI bufx px = 0
    · rw [if_pos hq] at hr
      rw [if_pos (hiff.mpr hq)]
      exact ih _ _ _ _ hks2 hr
    · rw [if_neg hq] at hr
      rw [if_neg (fun hcon => hq (hiff.mp hcon))]
      cases he : endOfG es ee g bufx (readWordI bufx px) px with
      | none => rw [he] at hr; exact absurd hr (by simp)
      | some e =>
        rw [he] at hr
        obtain ⟨hckind, hcextra, hcderef⟩ := hcorr hq
        have hy := endOf_correspond es ee Δ h8 g bufx bufy hread
          (readWordI bufx px) (readWordI bufy py) hckind hcextra px py hcderef e he
        rw [hy]
        dsimp only
        have hacc : max (max (es + Δ) (accx + Δ)) (e + Δ)
            = max (es + Δ) (max accx e + Δ) := by
          rw [← max_add_add_right accx e Δ]
          exact max_assoc _ _ _
        rw [hacc]
        exact ih _ _ _ _ hks2 hr

/-! ### Small facts used by the compaction proofs -/

theorem readWordI_coe (buf : List Nat) (a : Nat) :
    readWordI buf ((a : Nat) : Int) = readWord buf a := by
  unfold readWordI
  rw [if_pos (Int.ofNat_nonneg a)]
  simp

theorem ptrsLoop_all_null (rec : Nat → Int → Option Int) (buf : List Nat) :
    ∀ (n : Nat) (pos acc : Int),
      (∀ k : Nat, k < n → readWordI buf (pos + (k : Int) * 8) = 0) →
      ptrsLoop rec buf pos n acc = some acc := by
  intro n
  induction n with
  | zero => intro pos acc _; rfl
  | succ n ih =>
    intro pos acc hnull
    unfold ptrsLoop
    have h0 : readWordI buf pos = 0 := by
      have hh := hnull 0 (by omega)
      rw [show pos + ((0 : Nat) : Int) * 8 = pos by push_cast; ring] at hh
      exact hh
    rw [if_pos h0]
    apply ih
    intro k hk
    have hh := hnull (k + 1) (by omega)
    rw [show pos + ((k + 1 : Nat) : Int) * 8 = pos + 8 + (k : Int) * 8 by push_cast; ring] at hh
    exact hh

theorem ptrsLoop_inv (rec : Nat → Int → Option Int) (buf : List Nat) :
    ∀ (n : Nat) (pos acc r : Int), ptrsLoop rec buf pos n acc = some r →
      ∀ k : Nat, k < n → readWordI buf (pos + (k : Int) * 8) ≠ 0 →
        ∃ e, rec (readWordI buf (pos + (k : Int) * 8)) (pos + (k : Int) * 8) = some e := by
  intro n
  induction n with
  | zero => intro pos acc r _ k hk; omega
  | succ n ih =>
    intro pos acc r hr k hk hnz
    unfold ptrsLoop at hr
    match k with
    | 0 =>
      rw [show pos + ((0 : Nat) : Int) * 8 = pos by push_cast; ring] at hnz ⊢
      rw [if_neg hnz] at hr
      cases he : rec (readWordI buf pos) pos with
      | none => rw [he] at hr; exact absurd hr (by simp)
      | some e => exact ⟨e, rfl⟩
    | k + 1 =>
      rw [show pos + ((k + 1 : Nat) : Int) * 8 = pos + 8 + (k : Int) * 8 by push_cast; ring]
        at hnz ⊢
      by_cases hq : readWordI buf pos = 0
      · rw [if_pos hq] at hr
        exact ih _ _ _ hr k (by omega) hnz
      · rw [if_neg hq] at hr
        cases he : rec (readWordI buf pos) pos with
        | none => rw [he] at hr; exact absurd hr (by simp)
        | some e =>
          rw [he] at hr
          exact ih _ _ _ hr k (by omega) hnz

theorem endOfG_some_kind (lo hi : Int) (g : Nat) (buf : List Nat) (q : Nat) (pos e : Int)
    (h : endOfG lo hi g buf q pos = some e) :
    ptr.kind q = STRUCT ∨ ptr.kind q = LIST := by
  cases g with
  | zero => exact absurd h (by simp [endOfG])
  | succ g =>
    unfold endOfG at h
    unfold endOfTgtG at h
    by_cases hk : ptr.kind q = STRUCT
    · exact Or.inl hk
    · by_cases hk2 : ptr.kind q = LIST
      · exact Or.inr hk2
      · rw [if_neg hk, if_neg hk2] at h
        exact absurd h (by simp)

namespace StructView

theorem getEnd_eq_loop (g : Nat) (s : StructView) (hd : s.dataSize < 2 ^ 16)
    (hpz : s.ptrsSize < 2 ^ 16) :
    s.getEnd (g + 1)
      = ptrsLoop (endOf g s.buf) s.buf ((s.ptrsOffset : Int)) s.ptrsSize ((s.bodyEnd : Int)) := by
  unfold getEnd
  unfold endOf
  unfold endOfTgt
  rw [ptr.kind_new_struct, if_pos rfl]
  rw [ptr.extra_new_struct 0 s.dataSize s.ptrsSize hd hpz]
  have hmod : (s.dataSize + 2 ^ 16 * s.ptrsSize) % 2 ^ 16 = s.dataSize := by omega
  have hdiv : (s.dataSize + 2 ^ 16 * s.ptrsSize) / 2 ^ 16 = s.ptrsSize := by omega
  rw [hmod, hdiv]
  have hderef : ptr.deref (ptr.new_struct 0 s.dataSize s.ptrsSize) ((s.dataOffset : Int) - 8)
      = (s.dataOffset : Int) := by
    unfold ptr.deref
    rw [ptr.offset_new_struct 0 s.dataSize s.ptrsSize (by norm_num) (by norm_num)]
    ring
  rw [hderef]
  have harg1 : (s.dataOffset : Int) + (s.dataSize : Int) * 8 = (s.ptrsOffset : Int) := by
    unfold ptrsOffset
    push_cast
    ring
  have harg2 : (s.dataOffset : Int) + ((s.dataSize : Int) + (s.ptrsSize : Int)) * 8
      = (s.bodyEnd : Int) := by
    unfold bodyEnd
    push_cast
    ring
  dsimp only
  rw [harg1, harg2]

theorem readFastPtr_compacted (d pz : Nat) (dataBuf : List Nat) (ws : List Nat)
    (tail : List Nat) (hdl : dataBuf.length = d * 8) (hws : ws.length = pz)
    (hwlt : ∀ w ∈ ws, w < 2 ^ 64) (k : Nat) (hk : k < pz) :
    (StructView.mk ((dataBuf ++ (ws.map pack_int64).flatten) ++ tail) 0 d pz).readFastPtr (k * 8)
      = ws.get ⟨k, by omega⟩ := by
  unfold readFastPtr
  rw [if_neg (by simp only [ge_iff_le, not_le]; omega)]
  show readWord ((dataBuf ++ (ws.map pack_int64).flatten) ++ tail) (0 + d * 8 + k * 8)
      = ws.get ⟨k, by omega⟩
  rw [List.append_assoc]
  rw [readWord_append_right _ _ _ (by omega)]
  rw [show 0 + d * 8 + k * 8 - dataBuf.length = k * 8 by omega]
  exact readWord_join_packs ws tail k (by omega) hwlt

theorem readWordI_ptrSection (s : StructView) (k : Nat) (hk : k < s.ptrsSize) :
    readWordI s.buf ((s.ptrsOffset : Int) + (k : Int) * 8) = s.readFastPtr (k * 8) := by
  rw [show (s.ptrsOffset : Int) + (k : Int) * 8 = ((s.ptrsOffset + k * 8 : Nat) : Int) by
    push_cast; ring]
  rw [readWordI_coe]
  unfold readFastPtr
  rw [if_neg (by simp only [ge_iff_le, not_le]; omega)]

set_option maxHeartbeats 1000000 in
theorem compact_stable (g : Nat) (x : StructView) (es ee : Int) (y : StructView)
    (h256 : ∀ b ∈ x.buf, b < 256)
    (halign : 8 ∣ x.dataOffset)
    (hd16 : x.dataSize < 2 ^ 16) (hpz16 : x.ptrsSize < 2 ^ 16)
    (hbody : x.bodyEnd ≤ x.buf.length)
    (hES : x.getExtraStart = some es)
    (hbe_es : (x.bodyEnd : Int) ≤ es)
    (hesee : es ≤ ee)
    (heelen : ee ≤ (x.buf.length : Int))
    (hB : ptrsLoop (endOfG es ee g x.buf) x.buf ((x.ptrsOffset : Int)) x.ptrsSize
      ((x.bodyEnd : Int)) = some ee)
    (hrange : ∀ k, k < x.ptrsSize → x.readFastPtr (k * 8) ≠ 0 →
      -(2 ^ 29) ≤ ptr.offset (x.readFastPtr (k * 8)) + (0 - (es - (x.bodyEnd : Int)).fdiv 8) ∧
      ptr.offset (x.readFastPtr (k * 8)) + (0 - (es - (x.bodyEnd : Int)).fdiv 8) < 2 ^ 29 ∧
      fixWord (0 - (es - (x.bodyEnd : Int)).fdiv 8) (x.readFastPtr (k * 8)) ≠ 0)
    (hc : x.compact (g + 1) = some y) :
    y.compact (g + 1) = some y := by
  by_cases hpz0 : x.ptrsSize = 0
  · -- no pointer fields: the compact form is the data section verbatim
    have hsplit : x.split (g + 1) 0 = some (slice x.buf x.bodyStart x.bodyEnd, []) := by
      unfold split
      rw [if_pos hpz0]
    unfold compact at hc
    rw [hsplit] at hc
    simp only [Option.map, List.append_nil] at hc
    have hy := Option.some.inj hc
    subst hy
    have hBlen : (slice x.buf x.bodyStart x.bodyEnd).length = x.dataSize * 8 := by
      rw [length_slice]
      simp only [bodyStart, bodyEnd, hpz0] at hbody ⊢
      omega
    unfold compact split
    rw [if_pos (show (StructView.mk (slice x.buf x.bodyStart x.bodyEnd) 0 x.dataSize
      x.ptrsSize).ptrsSize = 0 from hpz0)]
    simp only [Option.map]
    congr 1
    rw [List.append_nil]
    congr 1
    show slice (slice x.buf x.bodyStart x.bodyEnd) 0 (0 + (x.dataSize + x.ptrsSize) * 8)
      = slice x.buf x.bodyStart x.bodyEnd
    have houter : ∀ (l : List Nat) (m : Nat), l.length ≤ m → slice l 0 m = l := by
      intro l m hm
      unfold slice
      rw [List.drop_zero]
      apply List.take_of_length_le
      omega
    apply houter
    rw [hBlen]
    omega
  · -- at least one pointer slot
    have hpo : x.ptrsOffset = x.dataOffset + x.dataSize * 8 := rfl
    have hbe : x.bodyEnd = x.dataOffset + (x.dataSize + x.ptrsSize) * 8 := rfl
    set additional : Int := 0 - (es - (x.bodyEnd : Int)).fdiv 8 with hadddef
    have hreadx : ∀ k : Nat, k < x.ptrsSize →
        readWordI x.buf ((x.ptrsOffset : Int) + (k : Int) * 8) = x.readFastPtr (k * 8) :=
      fun k hk => readWordI_ptrSection x k hk
    have hfarall : ∀ k, k < x.ptrsSize → x.readFastPtr (k * 8) ≠ 0 →
        ptr.kind (x.readFastPtr (k * 8)) ≠ FAR := by
      intro k hk hnz
      obtain ⟨e, he⟩ := ptrsLoop_inv _ _ _ _ _ _ hB k hk (by rw [hreadx k hk]; exact hnz)
      rw [hreadx k hk] at he
      rcases endOfG_some_kind _ _ _ _ _ _ _ he with hh | hh <;>
        rw [hh] <;> simp [STRUCT, LIST, FAR]
    have hcases : ((∀ k, k < x.ptrsSize → x.readFastPtr (k * 8) = 0) ∧ es = (x.bodyEnd : Int))
        ∨ (∃ i0 : Nat, i0 < x.ptrsSize ∧ (∀ k, k < i0 → x.readFastPtr (k * 8) = 0) ∧
           x.readFastPtr (i0 * 8) ≠ 0 ∧
           es = (x.ptrsOffset : Int) + ptr.deref (x.readFastPtr (i0 * 8)) ((i0 : Int) * 8)) := by
      by_cases hall : ∀ k, k < x.ptrsSize → x.readFastPtr (k * 8) = 0
      · left
        refine ⟨hall, ?_⟩
        have hloop := getExtraStartLoop_all_null x x.ptrsSize 0
          (fun k _ hk2 => hall k (by omega))
        unfold getExtraStart at hES
        rw [if_neg hpz0, hloop] at hES
        exact (Option.some.inj hES).symm
      · right
        push_neg at hall
        obtain ⟨k0, hk0, hk0nz⟩ := hall
        have hexdec : ∃ k, k < x.ptrsSize ∧ x.readFastPtr (k * 8) ≠ 0 := ⟨k0, hk0, hk0nz⟩
        have hfindlt : Nat.find hexdec < x.ptrsSize := (Nat.find_spec hexdec).1
        have hfindnz : x.readFastPtr (Nat.find hexdec * 8) ≠ 0 := (Nat.find_spec hexdec).2
        refine ⟨Nat.find hexdec, hfindlt, ?_, hfindnz, ?_⟩
        · intro k hk
          by_contra hcon
          exact (Nat.find_min hexdec hk) ⟨by omega, hcon⟩
        · have hloop := getExtraStartLoop_first x x.ptrsSize 0 (Nat.find hexdec) (by omega)
            (by omega)
            (fun k _ hk2 => by
              by_contra hcon
              exact (Nat.find_min hexdec hk2) ⟨by omega, hcon⟩)
            hfindnz (hfarall _ hfindlt hfindnz)
          unfold getExtraStart at hES
          rw [if_neg hpz0, hloop] at hES
          exact (Option.some.inj hES).symm
    have hbe8 : (8 : Int) ∣ (x.bodyEnd : Int) := by
      obtain ⟨c, hc8⟩ := halign
      refine ⟨(c : Int) + x.dataSize + x.ptrsSize, ?_⟩
      rw [hbe, hc8]
      push_cast
      ring
    have hes8 : (8 : Int) ∣ es := by
      rcases hcases with ⟨_, hesval⟩ | ⟨i0, hi0lt, _, hi0nz, hesval⟩
      · rw [hesval]
        exact hbe8
      · rw [hesval]
        obtain ⟨c, hc8⟩ := halign
        refine ⟨(c : Int) + x.dataSize + i0 + ptr.offset (x.readFastPtr (i0 * 8)) + 1, ?_⟩
        unfold ptr.deref
        rw [hpo, hc8]
        push_cast
        ring
    have hdvd : (8 : Int) ∣ (es - (x.bodyEnd : Int)) := dvd_sub hes8 hbe8
    have hAdd8 : additional * 8 = (x.bodyEnd : Int) - es := by
      rw [hadddef, fdiv_eight]
      omega
    have hEnd : x.getEnd (g + 1) = some ee := by
      rw [getEnd_eq_loop g x hd16 hpz16]
      exact ptrsLoop_mono _ _ _
        (fun q pp e2 hq => endOfG_erase es ee g x.buf q pp e2 hq) _ _ _ _ hB
    set ws : List Nat := (List.range x.ptrsSize).map
      (fun k => fixWord additional (x.readFastPtr (k * 8))) with hwsdef
    set dataBuf := slice x.buf x.bodyStart (x.bodyStart + x.dataSize * 8) with hdataBuf
    set packsF := (ws.map pack_int64).flatten with hpacksF
    set extraBuf := slice x.buf es.toNat ee.toNat with hextraBuf
    have hfix2 : x.fixPtrsLoop additional 0 x.ptrsSize = some packsF := by
      rw [fixPtrsLoop_eq x additional x.ptrsSize 0 (fun k hk => by
        rw [show 0 + k = k by omega]
        exact hfarall k hk)]
      rw [hpacksF, hwsdef, List.map_map]
      congr 2
      apply List.map_congr_left
      intro k _
      simp only [Function.comp_apply]
      rw [show 0 + k = k by omega]
    have hsplit : x.split (g + 1) 0 = some (dataBuf ++ packsF, extraBuf) := by
      unfold split
      rw [if_neg hpz0, hES, hEnd]
      dsimp only
      rw [← hadddef, hfix2]
    unfold compact at hc
    rw [hsplit] at hc
    simp only [Option.map] at hc
    have hy := Option.some.inj hc
    subst hy
    set y := StructView.mk ((dataBuf ++ packsF) ++ extraBuf) 0 x.dataSize x.ptrsSize with hydef
    have hbody2 : x.dataOffset + (x.dataSize + x.ptrsSize) * 8 ≤ x.buf.length := by
      rw [← hbe]
      exact hbody
    have hdataLen : dataBuf.length = x.dataSize * 8 := by
      rw [hdataBuf, length_slice]
      simp only [bodyStart]
      omega
    have hwsLen : ws.length = x.ptrsSize := by
      rw [hwsdef, List.length_map, List.length_range]
    have hwsLt : ∀ w ∈ ws, w < 2 ^ 64 := by
      intro w hw
      rw [hwsdef] at hw
      obtain ⟨k, _, rfl⟩ := List.mem_map.mp hw
      exact fixWord_lt additional _
    have hpacksLen : packsF.length = 8 * x.ptrsSize := by
      rw [hpacksF, length_flatten_packs, hwsLen]
    have hesnn : (0 : Int) ≤ es := le_trans (Int.ofNat_nonneg _) hbe_es
    have heenn : (0 : Int) ≤ ee := le_trans hesnn hesee
    have hextraLen : extraBuf.length = (ee - es).toNat := by
      rw [hextraBuf, length_slice]
      omega
    have hyptr : ∀ k, k < x.ptrsSize →
        y.readFastPtr (k * 8) = fixWord additional (x.readFastPtr (k * 8)) := by
      intro k hk
      rw [hydef, hpacksF]
      rw [readFastPtr_compacted x.dataSize x.ptrsSize dataBuf ws extraBuf hdataLen hwsLen
        hwsLt k hk]
      simp [hwsdef]
    have hfixfields : ∀ k, k < x.ptrsSize → x.readFastPtr (k * 8) ≠ 0 →
        ptr.kind (fixWord additional (x.readFastPtr (k * 8))) = ptr.kind (x.readFastPtr (k * 8)) ∧
        ptr.extra (fixWord additional (x.readFastPtr (k * 8)))
          = ptr.extra (x.readFastPtr (k * 8)) ∧
        ptr.offset (fixWord additional (x.readFastPtr (k * 8)))
          = ptr.offset (x.readFastPtr (k * 8)) + additional := by
      intro k hk hnz
      obtain ⟨hr1, hr2, _⟩ := hrange k hk hnz
      unfold fixWord
      rw [if_neg hnz]
      exact ⟨ptr.kind_new_generic _ _ _ (ptr.kind_lt _),
        ptr.extra_new_generic _ _ _ (ptr.kind_lt _) (ptr.extra_lt _),
        ptr.offset_new_generic _ _ _ (ptr.kind_lt _) hr1 hr2⟩
    set Δ : Int := (((x.dataSize + x.ptrsSize) * 8 : Nat) : Int) - es with hDdef
    have hD8 : (8 : Int) ∣ Δ := by
      rw [hDdef]
      apply dvd_sub _ hes8
      exact ⟨((x.dataSize : Int) + x.ptrsSize), by push_cast; ring⟩
    have hylen : y.buf.length = (x.dataSize + x.ptrsSize) * 8 + (ee - es).toNat := by
      rw [hydef]
      simp only [List.length_append]
      omega
    have hlen1 : (dataBuf ++ packsF).length = (x.dataSize + x.ptrsSize) * 8 := by
      rw [List.length_append]
      omega
    have hread : ∀ z : Int, es ≤ z → z + 8 ≤ ee →
        readWordI y.buf (z + Δ) = readWordI x.buf z := by
      intro z hz1 hz2
      have hznn : (0 : Int) ≤ z := le_trans hesnn hz1
      have hzDnn : (0 : Int) ≤ z + Δ := by
        rw [hDdef]
        push_cast
        omega
      unfold readWordI
      rw [if_pos hznn, if_pos hzDnn]
      have htn : (z + Δ).toNat = (x.dataSize + x.ptrsSize) * 8 + (z.toNat - es.toNat) := by
        rw [hDdef]
        push_cast
        omega
      rw [htn, hydef]
      show readWord ((dataBuf ++ packsF) ++ extraBuf) _ = _
      rw [readWord_append_right _ _ _ (by rw [hlen1]; omega)]
      rw [hlen1]
      rw [show (x.dataSize + x.ptrsSize) * 8 + (z.toNat - es.toNat)
          - (x.dataSize + x.ptrsSize) * 8 = z.toNat - es.toNat by omega]
      rw [hextraBuf]
      rw [readWord_slice x.buf es.toNat ee.toNat (z.toNat - es.toNat) (by omega)]
      congr 1
      omega
    have hyders : ∀ k, k < x.ptrsSize → x.readFastPtr (k * 8) ≠ 0 →
        ptr.deref (fixWord additional (x.readFastPtr (k * 8))) ((y.ptrsOffset : Int) + (k : Int) * 8)
          = ptr.deref (x.readFastPtr (k * 8)) ((x.ptrsOffset : Int) + (k : Int) * 8) + Δ := by
      intro k hk hnz
      obtain ⟨_, _, hoff⟩ := hfixfields k hk hnz
      unfold ptr.deref
      rw [hoff]
      have hypo : y.ptrsOffset = 0 + x.dataSize * 8 := rfl
      have hA := hAdd8
      rw [hbe] at hA
      push_cast at hA
      rw [hypo, hpo, hDdef]
      push_cast
      linarith
    have hyreads : ∀ k : Nat, k < x.ptrsSize →
        readWordI y.buf ((y.ptrsOffset : Int) + (k : Int) * 8)
          = fixWord additional (x.readFastPtr (k * 8)) := by
      intro k hk
      rw [readWordI_ptrSection y k hk]
      exact hyptr k hk
    have hks : ∀ k : Nat, k < x.ptrsSize →
        ((readWordI y.buf ((y.ptrsOffset : Int) + (k : Int) * 8) = 0)
          ↔ (readWordI x.buf ((x.ptrsOffset : Int) + (k : Int) * 8) = 0)) ∧
        (readWordI x.buf ((x.ptrsOffset : Int) + (k : Int) * 8) ≠ 0 →
          ptr.kind (readWordI y.buf ((y.ptrsOffset : Int) + (k : Int) * 8))
            = ptr.kind (readWordI x.buf ((x.ptrsOffset : Int) + (k : Int) * 8)) ∧
          ptr.extra (readWordI y.buf ((y.ptrsOffset : Int) + (k : Int) * 8))
            = ptr.extra (readWordI x.buf ((x.ptrsOffset : Int) + (k : Int) * 8)) ∧
          ptr.deref (readWordI y.buf ((y.ptrsOffset : Int) + (k : Int) * 8))
              ((y.ptrsOffset : Int) + (k : Int) * 8)
            = ptr.deref (readWordI x.buf ((x.ptrsOffset : Int) + (k : Int) * 8))
              ((x.ptrsOffset : Int) + (k : Int) * 8) + Δ) := by
      intro k hk
      rw [hyreads k hk, hreadx k hk]
      constructor
      · constructor
        · intro h0
          by_contra hnz
          exact (hrange k hk hnz).2.2 h0
        · intro h0
          rw [h0]
          simp [fixWord]
      · intro hnz
        obtain ⟨h1, h2, _⟩ := hfixfields k hk hnz
        exact ⟨h1, h2, hyders k hk hnz⟩
    have hyBE : ((y.bodyEnd : Nat) : Int) = es + Δ := by
      show (((0 + (x.dataSize + x.ptrsSize) * 8 : Nat)) : Int) = es + Δ
      rw [hDdef]
      push_cast
      ring
    have hyEnd : y.getEnd (g + 1) = some (ee + Δ) := by
      rw [getEnd_eq_loop g y hd16 hpz16]
      have hcor := topLoop_correspond es ee Δ hD8 g x.buf y.buf hread x.ptrsSize
        ((x.ptrsOffset : Int)) ((y.ptrsOffset : Int)) ((x.bodyEnd : Int)) ee hks hB
      have hacc : max (es + Δ) ((x.bodyEnd : Int) + Δ) = ((y.bodyEnd : Nat) : Int) := by
        rw [hyBE]
        exact max_eq_left (by omega)
      rw [hacc] at hcor
      have hval : max (es + Δ) (ee + Δ) = ee + Δ := max_eq_right (by omega)
      rw [hval] at hcor
      exact hcor
    have hfixzero : ∀ w : Nat, w < 2 ^ 64 → fixWord 0 w = w := by
      intro w hw
      unfold fixWord
      by_cases h0 : w = 0
      · rw [if_pos h0, h0]
      · rw [if_neg h0, add_zero]
        exact ptr.new_generic_eq_self w hw
    have hypz : y.ptrsSize = x.ptrsSize := rfl
    have hESy : y.getExtraStart = some (((y.bodyEnd : Nat) : Int)) := by
      unfold getExtraStart
      rw [if_neg (show ¬ y.ptrsSize = 0 from hpz0)]
      rcases hcases with ⟨hall, _⟩ | ⟨i0, hi0lt, hprefix, hi0nz, hesval⟩
      · rw [getExtraStartLoop_all_null y x.ptrsSize 0
          (fun k _ hk2 => by rw [hyptr k (by omega), hall k (by omega)]; simp [fixWord])]
      · rw [getExtraStartLoop_first y x.ptrsSize 0 i0 (by omega) (by omega)
          (fun k _ hk2 => by rw [hyptr k (by omega), hprefix k hk2]; simp [fixWord])
          (by rw [hyptr i0 hi0lt]; exact (hrange i0 hi0lt hi0nz).2.2)
          (by rw [hyptr i0 hi0lt, (hfixfields i0 hi0lt hi0nz).1]; exact hfarall i0 hi0lt hi0nz)]
        congr 1
        rw [hyptr i0 hi0lt]
        unfold ptr.deref
        rw [(hfixfields i0 hi0lt hi0nz).2.2]
        have hypo : y.ptrsOffset = 0 + x.dataSize * 8 := rfl
        have hybe : y.bodyEnd = 0 + (x.dataSize + x.ptrsSize) * 8 := rfl
        have hA := hAdd8
        rw [hbe] at hA
        push_cast at hA
        have hesv := hesval
        unfold ptr.deref at hesv
        rw [hpo] at hesv
        push_cast at hesv
        rw [hypo, hybe]
        push_cast
        linarith
    have hyfixloop : y.fixPtrsLoop 0 0 x.ptrsSize = some packsF := by
      rw [fixPtrsLoop_eq y 0 x.ptrsSize 0 (fun k hk hnz => by
        rw [show 0 + k = k by omega] at hnz ⊢
        rw [hyptr k hk] at hnz ⊢
        have hxnz : x.readFastPtr (k * 8) ≠ 0 := by
          intro hcon
          rw [hcon] at hnz
          exact hnz (by simp [fixWord])
        rw [(hfixfields k hk hxnz).1]
        exact hfarall k hk hxnz)]
      rw [hpacksF, hwsdef, List.map_map]
      congr 2
      apply List.map_congr_left
      intro k hkmem
      have hk : k < x.ptrsSize := List.mem_range.mp hkmem
      simp only [Function.comp_apply]
      rw [show 0 + k = k by omega]
      rw [hyptr k hk]
      rw [hfixzero _ (fixWord_lt _ _)]
    have hdata_y : slice y.buf y.bodyStart (y.bodyStart + y.dataSize * 8) = dataBuf := by
      show slice y.buf 0 (0 + x.dataSize * 8) = dataBuf
      unfold slice
      rw [List.drop_zero, hydef]
      rw [List.append_assoc]
      rw [show 0 + x.dataSize * 8 - 0 = dataBuf.length by omega]
      rw [List.take_append_eq_append_take]
      rw [List.take_length, Nat.sub_self, List.take_zero, List.append_nil]
    have hextra_y : slice y.buf ((((y.bodyEnd : Nat) : Int)).toNat) ((ee + Δ).toNat)
        = extraBuf := by
      have hybe2 : y.bodyEnd = 0 + (x.dataSize + x.ptrsSize) * 8 := rfl
      have htn1 : (((y.bodyEnd : Nat) : Int)).toNat = (dataBuf ++ packsF).length := by
        rw [Int.toNat_ofNat, hybe2, hlen1]
        omega
      have htn2 : (ee + Δ).toNat = (dataBuf ++ packsF).length + extraBuf.length := by
        rw [hDdef, hlen1, hextraLen]
        push_cast
        omega
      unfold slice
      rw [htn1, htn2, hydef]
      rw [List.drop_append_eq_append_drop]
      rw [List.drop_length, Nat.sub_self, List.drop_zero, List.nil_append]
      rw [show (dataBuf ++ packsF).length + extraBuf.length - (dataBuf ++ packsF).length
        = extraBuf.length by omega]
      exact List.take_length extraBuf
    show y.compact (g + 1) = some y
    unfold compact split
    rw [if_neg (show ¬ y.ptrsSize = 0 from hpz0), hESy, hyEnd]
    dsimp only
    rw [show ((0 : Int) - ((((y.bodyEnd : Nat) : Int)) - (((y.bodyEnd : Nat) : Int))).fdiv 8)
        = (0 : Int) by rw [sub_self, Int.zero_fdiv, sub_zero]]
    rw [hypz, hyfixloop]
    dsimp only
    rw [hdata_y, hextra_y]
    simp only [Option.map]

/-- Inversion of the pointer-fixing loop: success implies no scanned
non-null pointer is FAR. -/
theorem fixPtrsLoop_far (s : StructView) (additional : Int) :
    ∀ (n j : Nat) (l : List Nat), s.fixPtrsLoop additional j n = some l →
      ∀ k, k < n → s.readFastPtr ((j + k) * 8) ≠ 0 →
        ptr.kind (s.readFastPtr ((j + k) * 8)) ≠ FAR := by
  intro n
  induction n with
  | zero => intro j l _ k hk; omega
  | succ n ih =>
    intro j l hl k hk hnz
    unfold fixPtrsLoop at hl
    match k with
    | 0 =>
      rw [show j + 0 = j by omega] at hnz ⊢
      rw [if_neg hnz] at hl
      by_cases hfar : ptr.kind (s.readFastPtr (j * 8)) = FAR
      · rw [if_pos hfar] at hl
        exact absurd hl (by simp)
      · exact hfar
    | k + 1 =>
      rw [show j + (k + 1) = (j + 1) + k by omega] at hnz ⊢
      by_cases h0 : s.readFastPtr (j * 8) = 0
      · rw [if_pos h0] at hl
        cases hrest : s.fixPtrsLoop additional (j + 1) n with
        | none => rw [hrest] at hl; exact absurd hl (by simp)
        | some l2 => exact ih (j + 1) l2 hrest k (by omega) hnz
      · rw [if_neg h0] at hl
        by_cases hfar : ptr.kind (s.readFastPtr (j * 8)) = FAR
        · rw [if_pos hfar] at hl
          exact absurd hl (by simp)
        · rw [if_neg hfar] at hl
          cases hrest : s.fixPtrsLoop additional (j + 1) n with
          | none => rw [hrest] at hl; exact absurd hl (by simp)
          | some l2 => exact ih (j + 1) l2 hrest k (by omega) hnz

end StructView


/-- **C1**: characterization of `Struct._split`.  With no pointer fields the
body is the data section verbatim and the extra part is empty.  Otherwise the
body is the data section verbatim followed by the re-packed pointer words —
null words stay zero, and every non-null pointer word keeps its kind and
payload while its encoded offset is increased by
`extra_offset - old_extra_offset` with
`old_extra_offset = (extra_start - body_end)` in words — and the extra part
is the byte range `[extra_start, extra_end)` of the original buffer copied
verbatim. -/
theorem c1_split_characterization (fuel : Nat) (s : StructView) (extraOffset : Int)
    (body extra : List Nat) (es ee : Int)
    (hbody : s.bodyEnd ≤ s.buf.length)
    (hES : s.getExtraStart = some es)
    (hEnd : s.getEnd fuel = some ee)
    (hsp : s.split fuel extraOffset = some (body, extra)) :
    (s.ptrsSize = 0 → body = slice s.buf s.bodyStart s.bodyEnd ∧ extra = [])
    ∧ (¬ s.ptrsSize = 0 →
        body = slice s.buf s.bodyStart (s.bodyStart + s.dataSize * 8)
          ++ ((List.range s.ptrsSize).map
              (fun k => pack_int64 (StructView.fixWord
                (extraOffset - (es - (s.bodyEnd : Int)).fdiv 8) (s.readFastPtr (k * 8))))).flatten
        ∧ extra = slice s.buf es.toNat ee.toNat
        ∧ (∀ j, j < s.ptrsSize →
            readWord body (s.dataSize * 8 + j * 8)
              = StructView.fixWord (extraOffset - (es - (s.bodyEnd : Int)).fdiv 8)
                  (s.readFastPtr (j * 8))
            ∧ (s.readFastPtr (j * 8) = 0 → readWord body (s.dataSize * 8 + j * 8) = 0)
            ∧ (s.readFastPtr (j * 8) ≠ 0 →
                -(2 ^ 29) ≤ ptr.offset (s.readFastPtr (j * 8))
                  + (extraOffset - (es - (s.bodyEnd : Int)).fdiv 8) →
                ptr.offset (s.readFastPtr (j * 8))
                  + (extraOffset - (es - (s.bodyEnd : Int)).fdiv 8) < 2 ^ 29 →
                ptr.kind (readWord body (s.dataSize * 8 + j * 8))
                  = ptr.kind (s.readFastPtr (j * 8))
                ∧ ptr.extra (readWord body (s.dataSize * 8 + j * 8))
                  = ptr.extra (s.readFastPtr (j * 8))
                ∧ ptr.offset (readWord body (s.dataSize * 8 + j * 8))
                  = ptr.offset (s.readFastPtr (j * 8))
                    + (extraOffset - (es - (s.bodyEnd : Int)).fdiv 8)))) := by
  constructor
  · intro hpz0
    unfold StructView.split at hsp
    rw [if_pos hpz0] at hsp
    have hp := Option.some.inj hsp
    exact ⟨(congrArg Prod.fst hp).symm, (congrArg Prod.snd hp).symm⟩
  · intro hpz0
    unfold StructView.split at hsp
    rw [if_neg hpz0, hES, hEnd] at hsp
    dsimp only at hsp
    set a : Int := extraOffset - (es - (s.bodyEnd : Int)).fdiv 8 with hadef
    set ws : List Nat := (List.range s.ptrsSize).map
      (fun k => StructView.fixWord a (s.readFastPtr (k * 8))) with hwsdef
    cases hfl : s.fixPtrsLoop a 0 s.ptrsSize with
    | none => rw [hfl] at hsp; exact absurd hsp (by simp)
    | some pb =>
      rw [hfl] at hsp
      have hfar : ∀ k, k < s.ptrsSize → s.readFastPtr (k * 8) ≠ 0 →
          ptr.kind (s.readFastPtr (k * 8)) ≠ FAR := by
        intro k hk hnz
        have hh := StructView.fixPtrsLoop_far s a s.ptrsSize 0 pb hfl k hk
          (by rw [show 0 + k = k by omega]; exact hnz)
        rw [show 0 + k = k by omega] at hh
        exact hh
      have heq := StructView.fixPtrsLoop_eq s a s.ptrsSize 0
        (fun k hk => by rw [show 0 + k = k by omega]; exact hfar k hk)
      rw [heq] at hfl
      have hpb : pb = (ws.map pack_int64).flatten := by
        have hp := (Option.some.inj hfl).symm
        rw [hp, hwsdef, List.map_map]
        congr 1
        apply List.map_congr_left
        intro k _
        simp only [Function.comp_apply]
        rw [show 0 + k = k by omega]
      have hp := Option.some.inj hsp
      rw [Prod.mk.injEq] at hp
      obtain ⟨hb1, hb2⟩ := hp
      subst hb1
      subst hb2
      subst hpb
      have hdataLen : (slice s.buf s.bodyStart (s.bodyStart + s.dataSize * 8)).length
          = s.dataSize * 8 := by
        rw [length_slice]
        have hbe : s.bodyEnd = s.dataOffset + (s.dataSize + s.ptrsSize) * 8 := rfl
        simp only [StructView.bodyStart]
        rw [hbe] at hbody
        omega
      have hwsLt : ∀ w ∈ ws, w < 2 ^ 64 := by
        intro w hw
        rw [hwsdef] at hw
        obtain ⟨k, _, rfl⟩ := List.mem_map.mp hw
        exact StructView.fixWord_lt a _
      have hwsLen : ws.length = s.ptrsSize := by
        rw [hwsdef, List.length_map, List.length_range]
      have hwordread : ∀ j, j < s.ptrsSize →
          readWord (slice s.buf s.bodyStart (s.bodyStart + s.dataSize * 8)
              ++ (ws.map pack_int64).flatten) (s.dataSize * 8 + j * 8)
            = StructView.fixWord a (s.readFastPtr (j * 8)) := by
        intro j hj
        rw [readWord_append_right _ _ _ (by omega)]
        rw [show s.dataSize * 8 + j * 8
          - (slice s.buf s.bodyStart (s.bodyStart + s.dataSize * 8)).length = j * 8 by omega]
        have hrd := readWord_join_packs ws [] j (by omega) hwsLt
        rw [List.append_nil] at hrd
        rw [hrd]
        simp [hwsdef]
      have hpre : (ws.map pack_int64).flatten
          = ((List.range s.ptrsSize).map
              (fun k => pack_int64 (StructView.fixWord a (s.readFastPtr (k * 8))))).flatten := by
        rw [hwsdef, List.map_map]
        congr 1
      refine ⟨by rw [hpre], rfl, ?_⟩
      intro j hj
      refine ⟨hwordread j hj, ?_, ?_⟩
      · intro h0
        rw [hwordread j hj, h0]
        simp [StructView.fixWord]
      · intro hnz hlo hhi
        rw [hwordread j hj]
        unfold StructView.fixWord
        rw [if_neg hnz]
        exact ⟨ptr.kind_new_generic _ _ _ (ptr.kind_lt _),
          ptr.extra_new_generic _ _ _ (ptr.kind_lt _) (ptr.extra_lt _),
          ptr.offset_new_generic _ _ _ (ptr.kind_lt _) hlo hhi⟩



/-- **C2**: Compaction is idempotent.  For a well-formed struct view `x` —
valid bytes, word-aligned data offset, body inside the buffer, extra region
`[es, ee)` past the body end and inside the buffer, every non-null pointer
target admitting a guarded extent traversal confined to that window
(hypothesis `hB`), and every adjusted pointer offset staying inside the
signed 30-bit range without collapsing to a null word (hypothesis
`hrange`) — compacting the compacted view returns the compacted view itself:
`compact (compact x)` is byte-identical to `compact x`. -/
theorem c2_compact_idempotent (g : Nat) (x : StructView) (es ee : Int) (y : StructView)
    (h256 : ∀ b ∈ x.buf, b < 256)
    (halign : 8 ∣ x.dataOffset)
    (hd16 : x.dataSize < 2 ^ 16) (hpz16 : x.ptrsSize < 2 ^ 16)
    (hbody : x.bodyEnd ≤ x.buf.length)
    (hES : x.getExtraStart = some es)
    (hbe_es : (x.bodyEnd : Int) ≤ es)
    (hesee : es ≤ ee)
    (heelen : ee ≤ (x.buf.length : Int))
    (hB : ptrsLoop (endOfG es ee g x.buf) x.buf ((x.ptrsOffset : Int)) x.ptrsSize
      ((x.bodyEnd : Int)) = some ee)
    (hrange : ∀ k, k < x.ptrsSize → x.readFastPtr (k * 8) ≠ 0 →
      -(2 ^ 29) ≤ ptr.offset (x.readFastPtr (k * 8)) + (0 - (es - (x.bodyEnd : Int)).fdiv 8) ∧
      ptr.offset (x.readFastPtr (k * 8)) + (0 - (es - (x.bodyEnd : Int)).fdiv 8) < 2 ^ 29 ∧
      StructView.fixWord (0 - (es - (x.bodyEnd : Int)).fdiv 8) (x.readFastPtr (k * 8)) ≠ 0)
    (hc : x.compact (g + 1) = some y) :
    y.compact (g + 1) = some y :=
  StructView.compact_stable g x es ee y h256 halign hd16 hpz16 hbody hES hbe_es hesee
    heelen hB hrange hc

/-- Concrete struct view for the C2 witness: one data word (42) at byte 8,
one pointer field skipping a garbage word to reach a one-word struct (77),
surrounded by garbage words. -/
def c2x : StructView :=
  ⟨pack_int64 57005 ++ pack_int64 42 ++ pack_int64 (ptr.new_struct 1 1 0)
    ++ pack_int64 48879 ++ pack_int64 77, 8, 1, 1⟩

/-- The compact form of `c2x`. -/
def c2y : StructView :=
  ⟨pack_int64 42 ++ (pack_int64 (ptr.new_struct 0 1 0) ++ pack_int64 77), 0, 1, 1⟩

theorem c2_compact_idempotent_witness :
    c2x.compact 3 = some c2y ∧ c2y.compact 3 = some c2y :=
  ⟨by decide, c2_compact_idempotent 2 c2x 32 40 c2y (by decide) (by decide) (by decide)
    (by decide) (by decide) (by decide) (by decide) (by decide) (by decide) (by decide)
    (by decide) (by decide)⟩

/-- Concrete struct view for the C3 counterexample and witness: two non-null
pointer fields whose targets appear in reverse layout order (pointer 0
targets byte 24, pointer 1 targets byte 16). -/
def c3x : StructView :=
  ⟨pack_int64 (ptr.new_struct 2 1 0) ++ pack_int64 (ptr.new_struct 0 1 0)
    ++ pack_int64 11 ++ pack_int64 22, 0, 0, 2⟩

/-- C3 counterexample: `_get_extra_start` returns the first non-null
pointer's dereferenced target (byte 24) although pointer field 1 is non-null
with the strictly smaller dereferenced target 16, so it does not return the
smallest dereferenced target among the non-null pointer fields. -/
theorem c3_counterexample :
    c3x.getExtraStart = some 24
    ∧ 1 < c3x.ptrsSize ∧ c3x.readFastPtr (1 * 8) ≠ 0
    ∧ (c3x.ptrsOffset : Int) + ptr.deref (c3x.readFastPtr (1 * 8)) ((1 : Int) * 8) = 16
    ∧ (16 : Int) < 24 := by decide

/-- **C3 (amended)**: `_get_extra_start` returns the body end when the
struct has no pointer fields or all its pointer fields are null, and
otherwise the dereferenced target of the **first** non-null pointer field —
which equals the minimum dereferenced target only when targets appear in
pointer-field order. -/
theorem c3_extra_start_first (s : StructView) :
    (s.ptrsSize = 0 → s.getExtraStart = some (s.bodyEnd : Int))
    ∧ ((∀ k, k < s.ptrsSize → s.readFastPtr (k * 8) = 0) →
        s.getExtraStart = some (s.bodyEnd : Int))
    ∧ (∀ j, j < s.ptrsSize → (∀ k, k < j → s.readFastPtr (k * 8) = 0) →
        s.readFastPtr (j * 8) ≠ 0 → ptr.kind (s.readFastPtr (j * 8)) ≠ FAR →
        s.getExtraStart = some ((s.ptrsOffset : Int)
          + ptr.deref (s.readFastPtr (j * 8)) ((j : Int) * 8))) := by
  refine ⟨?_, ?_, ?_⟩
  · intro h0
    unfold StructView.getExtraStart
    rw [if_pos h0]
  · intro hall
    unfold StructView.getExtraStart
    by_cases h0 : s.ptrsSize = 0
    · rw [if_pos h0]
    · rw [if_neg h0]
      exact StructView.getExtraStartLoop_all_null s s.ptrsSize 0
        (fun k _ hk => hall k (by omega))
  · intro j hj hprefix hnz hfar
    unfold StructView.getExtraStart
    rw [if_neg (by omega)]
    exact StructView.getExtraStartLoop_first s s.ptrsSize 0 j (by omega) (by omega)
      (fun k _ hk2 => hprefix k hk2) hnz hfar

theorem c3_extra_start_first_witness :
    (c3x.readFastPtr (0 * 8) ≠ 0 ∧ ptr.kind (c3x.readFastPtr (0 * 8)) ≠ FAR)
    ∧ c3x.getExtraStart = some ((c3x.ptrsOffset : Int)
        + ptr.deref (c3x.readFastPtr (0 * 8)) ((0 : Int) * 8)) :=
  ⟨by decide, (c3_extra_start_first c3x).2.2 0 (by decide)
    (fun k hk => absurd hk (by omega)) (by decide) (by decide)⟩

/-- Concrete struct view for the C1 witness (same layout as `c2x`). -/
def c1x : StructView :=
  ⟨pack_int64 57005 ++ pack_int64 42 ++ pack_int64 (ptr.new_struct 1 1 0)
    ++ pack_int64 48879 ++ pack_int64 77, 8, 1, 1⟩

theorem c1_split_characterization_witness :
    readWord (pack_int64 42 ++ pack_int64 (ptr.new_struct 0 1 0)) (c1x.dataSize * 8 + 0 * 8)
        = StructView.fixWord (0 - ((32 : Int) - (c1x.bodyEnd : Int)).fdiv 8)
            (c1x.readFastPtr (0 * 8))
      ∧ pack_int64 77 = slice c1x.buf (Int.toNat 32) (Int.toNat 40) := by
  have h := c1_split_characterization 3 c1x 0
    (pack_int64 42 ++ pack_int64 (ptr.new_struct 0 1 0)) (pack_int64 77) 32 40
    (by decide) (by decide) (by decide) (by decide)
  obtain ⟨-, h2⟩ := h
  obtain ⟨h3, h4, h5⟩ := h2 (by decide)
  exact ⟨(h5 0 (by decide)).1, h4⟩

end Capnpy

namespace Capnpy

/-! ## Write-side builder (`capnpy/builder.py`) -/

/-- `AbstractBuilder` state: the initial committed length (`_length`), the
extra chunks in emission order (`_extra`), and the running total emitted
length (`_total_length`). -/
structure Builder where
  length : Nat
  extra : List (List Nat)
  totalLength : Nat
deriving Repr, DecidableEq

namespace Builder

/-- `AbstractBuilder._init_builder`. -/
def initBuilder (length : Nat) : Builder := ⟨length, [], length⟩

/-- `AbstractBuilder._force_alignment`: pad the running total length up to
the next 8-byte boundary; the zero padding bytes are an emitted chunk. -/
def forceAlignment (b : Builder) : Builder :=
  let padding := 8 - b.totalLength % 8
  if padding ≠ 8 then
    ⟨b.length, b.extra ++ [List.replicate padding 0], b.totalLength + padding⟩
  else b

/-- `AbstractBuilder._alloc`: append the chunk, grow the total, re-align. -/
def alloc (b : Builder) (s : List Nat) : Builder :=
  forceAlignment ⟨b.length, b.extra ++ [s], b.totalLength + s.length⟩

/-- `AbstractBuilder._calc_relative_offset` (Python 2 floor division). -/
def calcRelativeOffset (b : Builder) (offset : Nat) : Int :=
  ((b.totalLength : Int) - ((offset : Int) + 8)).fdiv 8

/-- `AbstractBuilder.alloc_struct`: a `none` value encodes NULL with no
allocation (the `isinstance` type check is enforced by the host type
system); otherwise the value is compacted and its bytes appended, and the
returned struct pointer word carries the relative word offset computed by
`_calc_relative_offset` from the total length as it was before the append.
`none` models a failing compaction. -/
def allocStruct (fuel : Nat) (b : Builder) (offset : Nat) (value : Option StructView) :
    Option (Nat × Builder) :=
  match value with
  | none => some (0, b)
  | some v =>
    let ptrOffset := b.calcRelativeOffset offset
    let p := ptr.new_struct ptrOffset v.dataSize v.ptrsSize
    match v.compact fuel with
    | none => none
    | some y => some (p, b.alloc y.buf)

/-- `AbstractBuilder._new_ptrlist`: the static item shape that the source
reads from `item_type` (schema collaborator) is passed as `dataSize` and
`ptrsSize`.  For a composite list the pointer's count field carries the
total body word count and a struct-shaped tag word holding the item count
is emitted first. -/
def newPtrList (b : Builder) (sizeTag : Nat) (ptrOffset : Int)
    (dataSize ptrsSize : Nat) (itemCount : Nat) : Nat × Builder :=
  if sizeTag ≠ LIST_SIZE_COMPOSITE then
    (ptr.new_list ptrOffset sizeTag itemCount, b)
  else
    let totalWords := (dataSize + ptrsSize) * itemCount
    let tag := ptr.new_struct (itemCount : Int) dataSize ptrsSize
    (ptr.new_list ptrOffset LIST_SIZE_COMPOSITE totalWords, b.alloc (pack_int64 tag))

end Builder

/-- `ListBuilder` state: the per-item byte length and size tag (obtained in
the source from `item_type.get_item_length()`), the expected item count,
the appended items, and the inherited `AbstractBuilder` fields. -/
structure ListBuilder where
  itemLength : Nat
  sizeTag : Nat
  itemCount : Nat
  items : List (List Nat)
  length : Nat
  extra : List (List Nat)
  totalLength : Nat
deriving Repr, DecidableEq

namespace ListBuilder

/-- `ListBuilder._init`: `_init_builder(item_length * item_count)` followed
by `_force_alignment()`. -/
def init (itemLength sizeTag itemCount : Nat) : ListBuilder :=
  let b := Builder.forceAlignment (Builder.initBuilder (itemLength * itemCount))
  ⟨itemLength, sizeTag, itemCount, [], b.length, b.extra, b.totalLength⟩

/-- `ListBuilder.append`. -/
def append (lb : ListBuilder) (item : List Nat) : ListBuilder :=
  { lb with items := lb.items ++ [item] }

/-- `ListBuilder.build`: the two `assert`s are modelled as `none`. -/
def build (lb : ListBuilder) : Option (List Nat) :=
  if lb.items.length = lb.itemCount then
    let listbody := lb.items.flatten
    if listbody.length = lb.length then some (listbody ++ lb.extra.flatten)
    else none
  else none

end ListBuilder

/-- **C9**: every chunk allocation through `_alloc` leaves the running total
emitted length a multiple of 8: after appending the chunk, a chunk of
`8 - total % 8` zero bytes is appended whenever the new total is not already
aligned, and this padding is part of the emitted byte stream and of the
total length. -/
theorem c9_alloc_alignment (b : Builder) (s : List Nat) :
    (b.alloc s).totalLength % 8 = 0
    ∧ (b.alloc s).extra.flatten
        = b.extra.flatten ++ s ++ List.replicate ((8 - (b.totalLength + s.length) % 8) % 8) 0
    ∧ (b.alloc s).totalLength
        = b.totalLength + s.length + (8 - (b.totalLength + s.length) % 8) % 8 := by
  unfold Builder.alloc Builder.forceAlignment
  dsimp
  have hproj : (Builder.mk b.length (b.extra ++ [s]) (b.totalLength + s.length)).totalLength
      = b.totalLength + s.length := rfl
  by_cases hp : 8 - (b.totalLength + s.length) % 8 = 8
  · rw [if_neg (by omega)]
    refine ⟨by omega, ?_, by omega⟩
    rw [show (8 - (b.totalLength + s.length) % 8) % 8 = 0 by omega]
    simp
  · rw [if_pos (by omega)]
    dsimp only
    refine ⟨by omega, ?_, by omega⟩
    rw [show (8 - (b.totalLength + s.length) % 8) % 8
      = 8 - (b.totalLength + s.length) % 8 by omega]
    simp [List.flatten_append]

end Capnpy

namespace Capnpy

/-- Concrete builder and value for the C4 counterexample and witness: a
parent with one pointer slot (8 bytes committed) and a one-word struct
value. -/
def c4b : Builder := Builder.initBuilder 8

/-- One-word struct value (data word 7) for C4. -/
def c4v : StructView := ⟨pack_int64 7, 0, 1, 0⟩

/-- C4 counterexample: at this concrete allocation the returned pointer
word encodes relative word offset 0 (computed from the pre-append total
length 8), while the claimed formula `(total_after_append - (offset+8)) / 8`
computed from the post-append total length 16 gives 1 — the two disagree,
and only the former dereferences to the start of the appended chunk. -/
theorem c4_counterexample :
    Builder.allocStruct 1 c4b 0 (some c4v)
      = some (ptr.new_struct 0 1 0, Builder.mk 8 [pack_int64 7 ++ []] 16)
    ∧ (Builder.mk 8 [pack_int64 7 ++ []] 16).totalLength = 16
    ∧ ptr.offset (ptr.new_struct 0 1 0) = 0
    ∧ (((16 : Int) - (0 + 8)).fdiv 8) = 1
    ∧ ¬ (ptr.offset (ptr.new_struct 0 1 0) = ((16 : Int) - (0 + 8)).fdiv 8) := by decide

/-- **C4 (amended)**: for a non-None value, `alloc_struct` returns a struct
pointer whose encoded relative word offset is
`(total_emitted_bytes_before_append - (offset + 8)) / 8`, computed from the
total emitted length as it is **before** the compacted value bytes are
appended, so that (for word-aligned states) the pointer dereferences to the
byte position at which the compacted chunk starts; the compacted bytes are
appended as one chunk. -/
theorem c4_alloc_struct_offset (fuel : Nat) (b : Builder) (offset : Nat) (v : StructView)
    (p : Nat) (b2 : Builder) (y : StructView)
    (hc : v.compact fuel = some y)
    (ha : Builder.allocStruct fuel b offset (some v) = some (p, b2))
    (hlo : -(2 ^ 29) ≤ ((b.totalLength : Int) - ((offset : Int) + 8)).fdiv 8)
    (hhi : ((b.totalLength : Int) - ((offset : Int) + 8)).fdiv 8 < 2 ^ 29) :
    ptr.offset p = ((b.totalLength : Int) - ((offset : Int) + 8)).fdiv 8
    ∧ ptr.kind p = STRUCT
    ∧ b2 = b.alloc y.buf
    ∧ ((8 : Int) ∣ ((b.totalLength : Int) - ((offset : Int) + 8)) →
        ptr.deref p ((offset : Int)) = (b.totalLength : Int)) := by
  unfold Builder.allocStruct at ha
  dsimp only at ha
  rw [hc] at ha
  dsimp only at ha
  have hp := Option.some.inj ha
  rw [Prod.mk.injEq] at hp
  obtain ⟨hp1, hp2⟩ := hp
  subst hp1
  subst hp2
  refine ⟨ptr.offset_new_struct _ _ _ hlo hhi, ptr.kind_new_struct _ _ _, rfl, ?_⟩
  intro hdvd
  unfold ptr.deref Builder.calcRelativeOffset
  rw [ptr.offset_new_struct _ _ _ hlo hhi]
  rw [fdiv_eight]
  omega

theorem c4_alloc_struct_offset_witness :
    (c4v.compact 1 = some (StructView.mk (pack_int64 7 ++ []) 0 1 0)
      ∧ Builder.allocStruct 1 c4b 0 (some c4v)
          = some (ptr.new_struct 0 1 0, Builder.alloc c4b (pack_int64 7 ++ [])))
    ∧ (ptr.offset (ptr.new_struct 0 1 0)
        = ((c4b.totalLength : Int) - ((0 : Nat) : Int) - 8).fdiv 8
      ∨ ptr.deref (ptr.new_struct 0 1 0) (((0 : Nat) : Int)) = (c4b.totalLength : Int)) :=
  ⟨⟨by decide, by decide⟩,
    Or.inr ((c4_alloc_struct_offset 1 c4b 0 c4v (ptr.new_struct 0 1 0)
      (Builder.alloc c4b (pack_int64 7 ++ [])) (StructView.mk (pack_int64 7 ++ []) 0 1 0)
      (by decide) (by decide) (by decide) (by decide)).2.2.2 (by decide))⟩

/-- **C10**: for a `ListBuilder` whose committed length is
`item_length * item_count` (as `_init` establishes), `build()` succeeds
exactly when the number of appended items is `item_count` and their
concatenated byte length is `item_length * item_count`, and then returns
the item bodies concatenated in append order followed by the extra chunks
in emission order. -/
theorem c10_listbuilder_build (lb : ListBuilder)
    (hlen : lb.length = lb.itemLength * lb.itemCount) :
    ∀ r, lb.build = some r ↔
      (lb.items.length = lb.itemCount
        ∧ lb.items.flatten.length = lb.itemLength * lb.itemCount
        ∧ r = lb.items.flatten ++ lb.extra.flatten) := by
  intro r
  unfold ListBuilder.build
  constructor
  · intro h
    by_cases h1 : lb.items.length = lb.itemCount
    · rw [if_pos h1] at h
      dsimp only at h
      by_cases h2 : lb.items.flatten.length = lb.length
      · rw [if_pos h2] at h
        exact ⟨h1, by omega, (Option.some.inj h).symm⟩
      · rw [if_neg h2] at h
        exact absurd h (by simp)
    · rw [if_neg h1] at h
      exact absurd h (by simp)
  · intro ⟨h1, h2, h3⟩
    rw [if_pos h1]
    dsimp only
    rw [if_pos (by omega), h3]

/-- Concrete list builder for the C10 witness: one 8-byte item, one append. -/
def c10lb : ListBuilder := ListBuilder.append (ListBuilder.init 8 5 1) (pack_int64 9)

theorem c10_listbuilder_build_witness :
    c10lb.length = c10lb.itemLength * c10lb.itemCount
    ∧ (c10lb.build = some (pack_int64 9 ++ []) ↔
        (c10lb.items.length = c10lb.itemCount
          ∧ c10lb.items.flatten.length = c10lb.itemLength * c10lb.itemCount
          ∧ pack_int64 9 ++ [] = c10lb.items.flatten ++ c10lb.extra.flatten)) :=
  ⟨by decide, c10_listbuilder_build c10lb (by decide) (pack_int64 9 ++ [])⟩

end Capnpy

namespace Capnpy

/-! ## List view (`capnpy/list.py`) and pointer-dereferencing reads -/

/-- `List` view state, as set up by `List._init_from_buffer` and
`List._set_list_tag`: the backing buffer, the byte position where the list
body starts, the element-size tag, and the tag-derived (or
pointer-supplied) item count, per-item byte length and first-item offset;
`tag` is the composite tag word, `-1` for non-composite lists. -/
structure ListView where
  buf : List Nat
  offset : Int
  sizeTag : Nat
  itemCount : Int
  itemLength : Nat
  itemOffset : Nat
  tag : Int
deriving Repr, DecidableEq

/-- `List._init_from_buffer` / `List._set_list_tag`: for a composite list
the item count and per-item shape come from the tag word read at `offset`
(the supplied `item_count` is ignored), bit lists raise `ValueError`, and
any other size tag takes the supplied count and the byte length from
`LIST_SIZE_LENGTH`. -/
def initListFromBuffer (buf : List Nat) (offset : Int) (size_tag item_count : Nat) :
    Except String ListView :=
  if size_tag = LIST_SIZE_COMPOSITE then
    let tag := readWordI buf offset
    Except.ok ⟨buf, offset, size_tag, ptr.offset tag,
      (ptr.struct_data_size tag + ptr.struct_ptrs_size tag) * 8, 8, ((tag : Nat) : Int)⟩
  else if size_tag = LIST_SIZE_BIT then
    Except.error ("Lists of bits are not supported")
  else
    Except.ok ⟨buf, offset, size_tag, ((item_count : Nat) : Int),
      LIST_SIZE_LENGTH size_tag, 0, -1⟩

namespace StructView

/-- `Struct._read_far_ptr`: beyond the pointer section the pair
`(offset, 0)` is returned; otherwise the far pointer is resolved through
the segment.  The segment's `read_far_ptr` is modelled from the spec (far
indirection is resolved transparently before the kind is interpreted; the
far word's upper payload names the target segment): in this single-segment
embedding the landing pad pointer word sits at the far pointer's encoded
word offset, and it is returned together with its byte position. -/
def readFarPtr (s : StructView) (offset : Nat) : Nat × Nat :=
  if offset ≥ s.ptrsSize * 8 then (offset, 0)
  else
    let p := readWord s.buf (s.ptrsOffset + offset)
    let pad := p / 8 % 2 ^ 29 * 8
    (pad, readWord s.buf pad)

/-- `Struct._read_struct`: dereference the struct pointer at byte offset
`offset` of the pointer section; a FAR pointer is resolved first, a null
pointer yields `none`, and the `assert ptr.kind(p) == ptr.STRUCT` is
modelled as an error. -/
def readStruct (s : StructView) (offset : Nat) : Except String (Option StructView) :=
  let p := s.readFastPtr offset
  let op : Nat × Nat :=
    if ptr.kind p = FAR then s.readFarPtr offset else (s.ptrsOffset + offset, p)
  if op.2 = 0 then Except.ok none
  else if ptr.kind op.2 = STRUCT then
    Except.ok (some ⟨s.buf, Int.toNat (ptr.deref op.2 ((op.1 : Int))),
      ptr.struct_data_size op.2, ptr.struct_ptrs_size op.2⟩)
  else Except.error ("assert failed: pointer kind is not STRUCT")

/-- `Struct._read_list`: dereference the list pointer at byte offset
`offset` of the pointer section; a FAR pointer is resolved first, a null
pointer yields the supplied default, and the
`assert ptr.kind(p) == ptr.LIST` is modelled as an error. -/
def readList (s : StructView) (offset : Nat) (default_ : Option ListView) :
    Except String (Option ListView) :=
  let p := s.readFastPtr offset
  let op : Nat × Nat :=
    if ptr.kind p = FAR then s.readFarPtr offset else (s.ptrsOffset + offset, p)
  if op.2 = 0 then Except.ok default_
  else if ptr.kind op.2 = LIST then
    match initListFromBuffer s.buf (ptr.deref op.2 ((op.1 : Int)))
        (ptr.list_size_tag op.2) (ptr.list_item_count op.2) with
    | Except.ok lv => Except.ok (some lv)
    | Except.error e => Except.error e
  else Except.error ("assert failed: pointer kind is not LIST")

/-- `Struct.__which__`: the raw 16-bit union tag; the schema-derived class
attribute `__tag_offset__` is passed as an argument, and its absence
(`none`) models the `TypeError` raised on a non-union type. -/
def whichRaw (s : StructView) (tagOffset : Option Nat) : Except String Int :=
  match tagOffset with
  | none => Except.error ("Cannot call which() on a non-union type")
  | some t => Except.ok (s.readDataInt16 t)

/-- `Struct._ensure_union`: succeed silently when the stored union tag
equals the expected one, otherwise raise a `ValueError` naming the
expected and the actual variant; the schema-derived enum constructor
`__tag__` used by `which()` for the error message is passed as the
function `tagRepr`. -/
def ensureUnion (s : StructView) (tagOffset : Option Nat) (tagRepr : Int → String)
    (expected : Int) : Except String Unit :=
  match s.whichRaw tagOffset with
  | Except.error e => Except.error e
  | Except.ok t =>
    if t = expected then Except.ok ()
    else Except.error ("Tried to read an union field which is not currently "
      ++ "initialized. Expected " ++ toString expected ++ ", got " ++ tagRepr t)

/-- Modelled from the spec: `Struct._get_extra_end_maybe` (not among the
sources; called by `List._get_body_end_composite`) contributes nothing
(`some none`) when the struct has no pointer fields or all its pointer
fields are null, and otherwise the maximum end position reachable from its
pointer fields per the §4.2 extent computation; the outer `none` models a
failing extent traversal. -/
def extraEndMaybe (fuel : Nat) (s : StructView) : Option (Option Int) :=
  if s.ptrsSize = 0 then some none
  else if (List.range s.ptrsSize).all (fun k => s.readFastPtr (k * 8) = 0) then some none
  else (ptrsLoop (endOf fuel s.buf) s.buf ((s.ptrsOffset : Int)) s.ptrsSize
    ((s.bodyEnd : Int))).map some

end StructView

namespace ListView

/-- `List._get_offset_for_item`: the body-relative byte offset of item `i`. -/
def getOffsetForItem (l : ListView) (i : Int) : Int :=
  ((l.itemOffset : Nat) : Int) + i * ((l.itemLength : Nat) : Int)

/-- `List._get_body_end_scalar`. -/
def getBodyEndScalar (l : ListView) : Int :=
  l.offset + ((l.itemLength : Nat) : Int) * l.itemCount

/-- The struct view over item `i` that `List._get_body_end_composite`
passes to `Struct.from_buffer`, with the item shape `(d, pz)` taken from
the composite tag word. -/
def itemStruct (l : ListView) (d pz : Nat) (i : Int) : StructView :=
  ⟨l.buf, Int.toNat (l.getOffsetForItem i + l.offset), d, pz⟩

/-- The backward scan of `List._get_body_end_composite`: with `n` items
left the item inspected is index `n - 1`; the first item whose
`_get_extra_end_maybe` is non-`None` gives the end (case 3), and when the
scan falls through every pointer was null and the scalar end plus the tag
word is returned (case 2). -/
def bodyEndCompositeLoop (fuel : Nat) (l : ListView) (d pz : Nat) : Nat → Option Int
  | 0 => some (l.getBodyEndScalar + 8)
  | n + 1 =>
    match StructView.extraEndMaybe fuel (itemStruct l d pz ((n : Nat) : Int)) with
    | none => none
    | some (some e) => some e
    | some none => bodyEndCompositeLoop fuel l d pz n

/-- `List._get_body_end_composite`: case 1 (item shape without pointer
fields) short-circuits to the scalar end plus the tag word; otherwise the
backward scan runs over all `item_count` items. -/
def getBodyEndComposite (fuel : Nat) (l : ListView) : Option Int :=
  if ptr.struct_ptrs_size (Int.toNat l.tag) = 0 then some (l.getBodyEndScalar + 8)
  else bodyEndCompositeLoop fuel l (ptr.struct_data_size (Int.toNat l.tag))
    (ptr.struct_ptrs_size (Int.toNat l.tag)) (Int.toNat l.itemCount)

/-- Modelled from the spec: `List._get_body_end_ptr` dereferences the last
item's pointer (through `Blob._read_list_or_struct`, not among the
sources) and returns that object's end per the §4.2 extent computation. -/
def getBodyEndPtr (fuel : Nat) (l : ListView) : Option Int :=
  let pos := l.offset + l.getOffsetForItem (l.itemCount - 1)
  endOf fuel l.buf (readWordI l.buf pos) pos

/-- `List._get_body_end`: dispatch on the element-size tag. -/
def getBodyEnd (fuel : Nat) (l : ListView) : Option Int :=
  if l.sizeTag = LIST_SIZE_COMPOSITE then l.getBodyEndComposite fuel
  else if l.sizeTag = LIST_SIZE_PTR then l.getBodyEndPtr fuel
  else some l.getBodyEndScalar

end ListView

end Capnpy

namespace Capnpy

theorem bodyEndCompositeLoop_all_none (fuel : Nat) (l : ListView) (d pz : Nat) :
    ∀ n, (∀ i, i < n →
        StructView.extraEndMaybe fuel (ListView.itemStruct l d pz ((i : Nat) : Int))
          = some none) →
      ListView.bodyEndCompositeLoop fuel l d pz n = some (l.getBodyEndScalar + 8) := by
  intro n
  induction n with
  | zero => intro _; rfl
  | succ n ih =>
    intro h
    unfold ListView.bodyEndCompositeLoop
    rw [h n (by omega)]
    exact ih (fun i hi => h i (by omega))

theorem bodyEndCompositeLoop_found (fuel : Nat) (l : ListView) (d pz : Nat) (j : Nat) (e : Int)
    (hj : StructView.extraEndMaybe fuel (ListView.itemStruct l d pz ((j : Nat) : Int))
      = some (some e)) :
    ∀ n, j < n →
      (∀ i, j < i → i < n →
        StructView.extraEndMaybe fuel (ListView.itemStruct l d pz ((i : Nat) : Int))
          = some none) →
      ListView.bodyEndCompositeLoop fuel l d pz n = some e := by
  intro n
  induction n with
  | zero => intro h _; exact absurd h (Nat.not_lt_zero j)
  | succ n ih =>
    intro hjn hnull
    unfold ListView.bodyEndCompositeLoop
    by_cases hje : j = n
    · subst hje
      rw [hj]
    · rw [hnull n (by omega) (by omega)]
      exact ih (by omega) (fun i h1 h2 => hnull i h1 (by omega))

/-- C5: default-value fallback.  Reading a data field at or beyond
`data_size * 8` returns 0 (both the generic and the 16-bit signed read), a
pointer field read at or beyond `ptrs_size * 8` is the null pointer word 0,
and dereferencing a null pointer returns the type's zero value — `none` for
a struct field and the supplied default for a list field — with no error
raised in any of these cases. -/
theorem c5_default_fallback (s : StructView) (offset : Nat) :
    (s.dataSize * 8 ≤ offset →
      (∀ size, s.readData offset size = 0) ∧ s.readDataInt16 offset = 0)
    ∧ (s.ptrsSize * 8 ≤ offset → s.readFastPtr offset = 0)
    ∧ (s.readFastPtr offset = 0 →
        s.readStruct offset = Except.ok none
        ∧ ∀ default_, s.readList offset default_ = Except.ok default_) := by
  refine ⟨?_, ?_, ?_⟩
  · intro h
    constructor
    · intro size
      unfold StructView.readData
      rw [if_pos h]
    · unfold StructView.readDataInt16
      rw [if_pos h]
  · intro h
    unfold StructView.readFastPtr
    rw [if_pos h]
  · intro hz
    constructor
    · simp only [StructView.readStruct, hz]
      norm_num [ptr.kind, FAR]
    · intro default_
      simp only [StructView.readList, hz]
      norm_num [ptr.kind, FAR]

/-- Concrete struct view for the C5 witness: no data words, one pointer
word, which is null. -/
def c5s : StructView := ⟨List.replicate 8 0, 0, 0, 1⟩

/-- Concrete list view supplied as the default in the C5 witness. -/
def c5lv : ListView := ⟨[], 0, LIST_SIZE_8, 0, 1, 0, -1⟩

theorem c5_default_fallback_witness :
    c5s.readData 0 8 = 0 ∧ c5s.readDataInt16 0 = 0
    ∧ c5s.readFastPtr 8 = 0
    ∧ c5s.readStruct 0 = Except.ok none
    ∧ c5s.readList 0 (some c5lv) = Except.ok (some c5lv) :=
  ⟨((c5_default_fallback c5s 0).1 (by decide)).1 8,
   ((c5_default_fallback c5s 0).1 (by decide)).2,
   (c5_default_fallback c5s 8).2.1 (by decide),
   ((c5_default_fallback c5s 0).2.2 (by decide)).1,
   ((c5_default_fallback c5s 0).2.2 (by decide)).2 (some c5lv)⟩

/-- C6: composite-list tag override.  Constructing a list view with the
composite size tag ignores the item count supplied by the pointer (any two
counts give the same view), and takes the item count from the tag word's
offset field, the per-item stride `(data_size + ptrs_size) * 8` from the
tag word's shape, and the first item 8 bytes past the list offset.  On the
build side, `_new_ptrlist` for a composite list emits a struct-shaped tag
word whose offset field holds the item count `m`, while the returned list
pointer's count field holds the total body word count
`(data_size + ptrs_size) * m`, not `m`. -/
theorem c6_composite_tag (buf : List Nat) (offset : Int) (item_count item_count2 : Nat)
    (b : Builder) (po : Int) (d pz m : Nat)
    (hm : m < 2 ^ 29) (hcnt : (d + pz) * m < 2 ^ 29) :
    (initListFromBuffer buf offset LIST_SIZE_COMPOSITE item_count
        = initListFromBuffer buf offset LIST_SIZE_COMPOSITE item_count2)
    ∧ (∀ lv, initListFromBuffer buf offset LIST_SIZE_COMPOSITE item_count = Except.ok lv →
        lv.itemCount = ptr.offset (readWordI buf offset)
        ∧ lv.itemLength
            = (ptr.struct_data_size (readWordI buf offset)
                + ptr.struct_ptrs_size (readWordI buf offset)) * 8
        ∧ lv.itemOffset = 8)
    ∧ (ptr.list_item_count (Builder.newPtrList b LIST_SIZE_COMPOSITE po d pz m).1
          = (d + pz) * m
        ∧ (Builder.newPtrList b LIST_SIZE_COMPOSITE po d pz m).2
            = b.alloc (pack_int64 (ptr.new_struct (((m : Nat) : Int)) d pz))
        ∧ ptr.offset (ptr.new_struct (((m : Nat) : Int)) d pz) = ((m : Nat) : Int)) := by
  have hinit : initListFromBuffer buf offset LIST_SIZE_COMPOSITE item_count
      = Except.ok ⟨buf, offset, LIST_SIZE_COMPOSITE, ptr.offset (readWordI buf offset),
          (ptr.struct_data_size (readWordI buf offset)
            + ptr.struct_ptrs_size (readWordI buf offset)) * 8, 8,
          ((readWordI buf offset : Nat) : Int)⟩ := rfl
  have hb : Builder.newPtrList b LIST_SIZE_COMPOSITE po d pz m
      = (ptr.new_list po LIST_SIZE_COMPOSITE ((d + pz) * m),
         b.alloc (pack_int64 (ptr.new_struct (((m : Nat) : Int)) d pz))) := by
    unfold Builder.newPtrList
    rw [if_neg (by decide)]
  refine ⟨rfl, ?_, ?_⟩
  · intro lv h
    have hlv := Except.ok.inj (hinit.symm.trans h)
    rw [← hlv]
    exact ⟨rfl, rfl, rfl⟩
  · rw [hb]
    exact ⟨ptr.list_item_count_new_list po LIST_SIZE_COMPOSITE _ (by decide) hcnt, rfl,
      ptr.offset_new_struct _ _ _ (by omega) (by omega)⟩

/-- Concrete composite tag word buffer for the C6 witness: 3 items of one
data word and no pointer words. -/
def c6buf : List Nat := pack_int64 (ptr.new_struct 3 1 0)

/-- The list view that `initListFromBuffer` builds over `c6buf`. -/
def c6lv : ListView :=
  ⟨c6buf, 0, LIST_SIZE_COMPOSITE, 3, 8, 8, ((ptr.new_struct 3 1 0 : Nat) : Int)⟩

theorem c6_composite_tag_witness :
    (initListFromBuffer c6buf 0 LIST_SIZE_COMPOSITE 7
        = initListFromBuffer c6buf 0 LIST_SIZE_COMPOSITE 9)
    ∧ (c6lv.itemCount = ptr.offset (readWordI c6buf 0)
        ∧ c6lv.itemLength
            = (ptr.struct_data_size (readWordI c6buf 0)
                + ptr.struct_ptrs_size (readWordI c6buf 0)) * 8
        ∧ c6lv.itemOffset = 8)
    ∧ (ptr.list_item_count
          (Builder.newPtrList (Builder.initBuilder 0) LIST_SIZE_COMPOSITE 0 1 0 3).1
          = (1 + 0) * 3
        ∧ (Builder.newPtrList (Builder.initBuilder 0) LIST_SIZE_COMPOSITE 0 1 0 3).2
            = (Builder.initBuilder 0).alloc (pack_int64 (ptr.new_struct (((3 : Nat) : Int)) 1 0))
        ∧ ptr.offset (ptr.new_struct (((3 : Nat) : Int)) 1 0) = ((3 : Nat) : Int)) := by
  have h := c6_composite_tag c6buf 0 7 9 (Builder.initBuilder 0) 0 1 0 3
      (by decide) (by decide)
  exact ⟨h.1, h.2.1 c6lv rfl, h.2.2⟩

/-- C7: the three cases of `List._get_body_end` on a composite list view
whose tag shape is `(d, pz)`.  (1) `pz = 0`: the end is right after the
scalar item bodies (plus the tag word).  (2) items carry pointer fields
but every item's pointers are all null: same as (1).  (3) otherwise, the
end is the maximum extent reachable from the last item (scanning backward
from index `item_count - 1`) that has a non-null pointer field. -/
theorem c7_body_end_composite (fuel : Nat) (l : ListView) (d pz : Nat)
    (hcomp : l.sizeTag = LIST_SIZE_COMPOSITE)
    (hd : d = ptr.struct_data_size (Int.toNat l.tag))
    (hpz : pz = ptr.struct_ptrs_size (Int.toNat l.tag)) :
    (pz = 0 → l.getBodyEnd fuel = some (l.getBodyEndScalar + 8))
    ∧ (pz ≠ 0 →
        (∀ i, i < Int.toNat l.itemCount →
          StructView.extraEndMaybe fuel (ListView.itemStruct l d pz ((i : Nat) : Int))
            = some none) →
        l.getBodyEnd fuel = some (l.getBodyEndScalar + 8))
    ∧ (pz ≠ 0 → ∀ j e, j < Int.toNat l.itemCount →
        StructView.extraEndMaybe fuel (ListView.itemStruct l d pz ((j : Nat) : Int))
          = some (some e) →
        (∀ i, j < i → i < Int.toNat l.itemCount →
          StructView.extraEndMaybe fuel (ListView.itemStruct l d pz ((i : Nat) : Int))
            = some none) →
        l.getBodyEnd fuel = some e) := by
  subst hd
  subst hpz
  unfold ListView.getBodyEnd
  rw [if_pos hcomp]
  unfold ListView.getBodyEndComposite
  refine ⟨?_, ?_, ?_⟩
  · intro h0
    rw [if_pos h0]
  · intro hnz hall
    rw [if_neg hnz]
    exact bodyEndCompositeLoop_all_none fuel l _ _ _ hall
  · intro hnz j e hj hje hnull
    rw [if_neg hnz]
    exact bodyEndCompositeLoop_found fuel l _ _ j e hje _ hj hnull

/-- Concrete composite list for the C7 witness: tag word for 1 item of
shape `(0, 1)`, one item holding a single non-null struct pointer whose
target is the final data word; the reachable end is byte 24. -/
def c7buf : List Nat :=
  pack_int64 (ptr.new_struct 1 0 1) ++ pack_int64 (ptr.new_struct 0 1 0) ++ pack_int64 99

/-- The composite list view over `c7buf`. -/
def c7l : ListView :=
  ⟨c7buf, 0, LIST_SIZE_COMPOSITE, 1, 8, 8, ((ptr.new_struct 1 0 1 : Nat) : Int)⟩

theorem c7_body_end_composite_witness :
    (0 : Nat) = ptr.struct_data_size (Int.toNat c7l.tag)
    ∧ (1 : Nat) = ptr.struct_ptrs_size (Int.toNat c7l.tag)
    ∧ c7l.getBodyEnd 1 = some 24 :=
  ⟨by decide, by decide,
    (c7_body_end_composite 1 c7l 0 1 (by decide) (by decide) (by decide)).2.2
      (by decide) 0 24 (by decide) (by decide)
      (fun i h1 h2 => by
        rw [show Int.toNat c7l.itemCount = 1 from rfl] at h2
        exact absurd h1 (by omega))⟩

/-- C8: `_ensure_union` returns normally when the stored 16-bit union tag
equals the expected variant id, and otherwise fails with the `ValueError`
whose message names both the expected and the actual variant. -/
theorem c8_ensure_union (s : StructView) (tagOffset : Nat) (tagRepr : Int → String)
    (expected : Int) :
    (s.readDataInt16 tagOffset = expected →
      s.ensureUnion (some tagOffset) tagRepr expected = Except.ok ())
    ∧ (s.readDataInt16 tagOffset ≠ expected →
      s.ensureUnion (some tagOffset) tagRepr expected
        = Except.error ("Tried to read an union field which is not currently "
            ++ "initialized. Expected " ++ toString expected ++ ", got "
            ++ tagRepr (s.readDataInt16 tagOffset))) := by
  constructor
  · intro h
    unfold StructView.ensureUnion StructView.whichRaw
    dsimp only
    rw [if_pos h]
  · intro h
    unfold StructView.ensureUnion StructView.whichRaw
    dsimp only
    rw [if_neg h]

/-- Concrete union struct for the C8 witness: one data word storing tag 5. -/
def c8s : StructView := ⟨encodeLE 8 5, 0, 1, 0⟩

theorem c8_ensure_union_witness :
    c8s.ensureUnion (some 0) (fun t => toString t) 5 = Except.ok ()
    ∧ c8s.ensureUnion (some 0) (fun t => toString t) 6
      = Except.error ("Tried to read an union field which is not currently "
          ++ "initialized. Expected " ++ toString (6 : Int) ++ ", got "
          ++ (fun t => toString t) (c8s.readDataInt16 0)) :=
  ⟨(c8_ensure_union c8s 0 (fun t => toString t) 5).1 (by decide),
   (c8_ensure_union c8s 0 (fun t => toString t) 6).2 (by decide)⟩

end Capnpy
